import Mathlib

/-!
Verification of the swap routing engine (`routing-engine` crate) against its
specification.  The Rust sources are shallowly embedded: `U256` values are
natural numbers with the wrapping (mod `2^256`) semantics of release-mode
`alloy_primitives::U256` arithmetic made explicit in the helper operations
`wadd`/`wmul`/`wsub`; `u128`/`u64`/`usize` values are plain naturals;
addresses and pool ids are naturals; `f64` fields (`price_impact`) are kept
as Lean `Float` data that no proved property inspects.  The float-based
`tick_to_sqrt_price_x96` projection is threaded through the routing code as
an explicit function parameter `t2s : Int → Nat` because the exactly rounded
double value never influences the verified properties.
-/

namespace RoutingEngine

/-- Modulus of the 256-bit unsigned integers used throughout the engine. -/
def U256MOD : Nat := 2 ^ 256

/-- Wrapping addition of two `U256` values (release-mode overflow semantics). -/
def wadd (a b : Nat) : Nat := (a + b) % U256MOD

/-- Wrapping multiplication of two `U256` values. -/
def wmul (a b : Nat) : Nat := (a * b) % U256MOD

/-- Wrapping subtraction of two `U256` values (operands are reduced mod `2^256`). -/
def wsub (a b : Nat) : Nat := (a % U256MOD + U256MOD - b % U256MOD) % U256MOD

/-- Q96 constant `2^96` used for the sqrt-price fixed point representation
(`q96()` in `utils/math.rs`). -/
def q96 : Nat := 2 ^ 96

/-- Result of a single swap step within one tick range
(struct `SwapStepResult` in `utils/math.rs`). -/
structure SwapStepResult where
  sqrt_price_next : Nat
  amount_in : Nat
  amount_out : Nat
  fee_amount : Nat
deriving Repr, DecidableEq

/-- Embedding of `get_amount0_delta` from `utils/math.rs`:
`L * Q96 * (upper - lower) / (upper * lower)`, rounded up. -/
def get_amount0_delta (sqrt_price_lower sqrt_price_upper liquidity : Nat) : Nat :=
  if sqrt_price_upper ≤ sqrt_price_lower ∨ sqrt_price_lower = 0 then 0
  else
    let numerator := wmul (wmul liquidity q96) (wsub sqrt_price_upper sqrt_price_lower)
    let denominator := wmul sqrt_price_upper sqrt_price_lower
    if denominator = 0 then 0
    else wsub (wadd numerator denominator) 1 / denominator

/-- Embedding of `get_amount1_delta` from `utils/math.rs`:
`L * (upper - lower) / Q96`, rounded up. -/
def get_amount1_delta (sqrt_price_lower sqrt_price_upper liquidity : Nat) : Nat :=
  if sqrt_price_upper ≤ sqrt_price_lower then 0
  else
    let numerator := wmul liquidity (wsub sqrt_price_upper sqrt_price_lower)
    wsub (wadd numerator q96) 1 / q96

/-- Embedding of `get_next_sqrt_price_from_amount0` from `utils/math.rs`. -/
def get_next_sqrt_price_from_amount0 (sqrt_price liquidity amount : Nat) : Nat :=
  if amount = 0 then sqrt_price
  else
    let numerator := wmul liquidity sqrt_price
    let denominator := wadd liquidity (wmul amount sqrt_price / q96)
    if denominator = 0 then sqrt_price
    else numerator / denominator

/-- Embedding of `get_next_sqrt_price_from_amount1` from `utils/math.rs`. -/
def get_next_sqrt_price_from_amount1 (sqrt_price liquidity amount : Nat) : Nat :=
  if liquidity = 0 then sqrt_price
  else wadd sqrt_price (wmul amount q96 / liquidity)

/-- Embedding of `compute_swap_step` from `utils/math.rs`: single swap step
within one tick range, mirroring Uniswap v3 `SwapMath.computeSwapStep`.
Lean `Nat` division returns 0 on a zero divisor, whereas Rust `U256`
division by zero panics even in release builds; the one division below
whose divisor can vanish — the fee term `/ wsub fee_denom fee_pips`, zero
exactly at `fee_pips = 1_000_000` — is therefore tracked by the separate
predicate `compute_swap_step_panics`. -/
def compute_swap_step (sqrt_price_current sqrt_price_target liquidity
    amount_remaining fee_pips : Nat) : SwapStepResult :=
  if amount_remaining = 0 ∨ liquidity = 0 then
    ⟨sqrt_price_current, 0, 0, 0⟩
  else
    let zero_for_one := sqrt_price_target ≤ sqrt_price_current
    let fee_denom := 1000000
    let amount_remaining_less_fee :=
      wmul amount_remaining (wsub fee_denom fee_pips) / fee_denom
    let amount_in_max :=
      if zero_for_one then get_amount0_delta sqrt_price_target sqrt_price_current liquidity
      else get_amount1_delta sqrt_price_current sqrt_price_target liquidity
    let step :=
      if amount_in_max ≤ amount_remaining_less_fee then
        let amount_out :=
          if zero_for_one then get_amount1_delta sqrt_price_target sqrt_price_current liquidity
          else get_amount0_delta sqrt_price_current sqrt_price_target liquidity
        (sqrt_price_target, amount_in_max, amount_out)
      else
        let sqrt_price_next :=
          if zero_for_one then
            get_next_sqrt_price_from_amount0 sqrt_price_current liquidity
              amount_remaining_less_fee
          else
            get_next_sqrt_price_from_amount1 sqrt_price_current liquidity
              amount_remaining_less_fee
        let amount_in_actual :=
          if zero_for_one then get_amount0_delta sqrt_price_next sqrt_price_current liquidity
          else get_amount1_delta sqrt_price_current sqrt_price_next liquidity
        let amount_out :=
          if zero_for_one then get_amount1_delta sqrt_price_next sqrt_price_current liquidity
          else get_amount0_delta sqrt_price_current sqrt_price_next liquidity
        (sqrt_price_next, amount_in_actual, amount_out)
    let fee_amount :=
      if amount_in_max ≤ amount_remaining_less_fee then
        if fee_pips = 0 then 0
        else wadd (wmul step.2.1 fee_pips / wsub fee_denom fee_pips) 1
      else wsub amount_remaining step.2.1
    ⟨step.1, step.2.1, step.2.2, fee_amount⟩

/-- Panic predicate for `compute_swap_step`: the fee computation
`amount_in * fee / (fee_denom - fee)` of the reaches-target branch is the
only division in the step whose divisor is neither the nonzero constant
`fee_denom` or `q96` nor guarded by an explicit zero check, and Rust `U256`
division by zero panics even in release builds while Lean `Nat` division
returns 0.  The predicate mirrors the control flow of the source up to that
division and holds exactly when it is reached with divisor
`wsub fee_denom fee_pips = 0`. -/
def compute_swap_step_panics (sqrt_price_current sqrt_price_target liquidity
    amount_remaining fee_pips : Nat) : Bool :=
  if amount_remaining = 0 ∨ liquidity = 0 then false
  else
    let zero_for_one := sqrt_price_target ≤ sqrt_price_current
    let fee_denom := 1000000
    let amount_remaining_less_fee :=
      wmul amount_remaining (wsub fee_denom fee_pips) / fee_denom
    let amount_in_max :=
      if zero_for_one then get_amount0_delta sqrt_price_target sqrt_price_current liquidity
      else get_amount1_delta sqrt_price_current sqrt_price_target liquidity
    if amount_in_max ≤ amount_remaining_less_fee then
      if fee_pips = 0 then false
      else wsub fee_denom fee_pips = 0
    else false

/-! ## Pool graph (`graph/pool_graph.rs`, `graph/edge.rs`, `graph/node.rs`) -/

/-- Embedding of struct `TokenNode` from `graph/node.rs`; the 20-byte
`Address` is modelled as a natural number. -/
structure TokenNode where
  address : Nat
  symbol : String
  decimals : Nat
  is_native : Bool
deriving Repr, DecidableEq

/-- Embedding of struct `PoolEdge` from `graph/edge.rs`; the 32-byte
`pool_id` and the two addresses are naturals, `tick`/`tick_spacing` are
integers, `liquidity` and `sqrt_price_x96` are naturals. -/
structure PoolEdge where
  pool_id : Nat
  token0 : Nat
  token1 : Nat
  fee : Nat
  tick_spacing : Int
  liquidity : Nat
  sqrt_price_x96 : Nat
  tick : Int
  hook_address : Nat
deriving Repr, DecidableEq

/-- Embedding of `PoolEdge::other_token`. -/
def PoolEdge.other_token (p : PoolEdge) (token : Nat) : Option Nat :=
  if token = p.token0 then some p.token1
  else if token = p.token1 then some p.token0
  else none

/-- Embedding of `PoolEdge::contains_token`. -/
def PoolEdge.contains_token (p : PoolEdge) (token : Nat) : Bool :=
  p.token0 = token ∨ p.token1 = token

/-- Embedding of `PoolEdge::zero_for_one`. -/
def PoolEdge.zero_for_one (p : PoolEdge) (token_in : Nat) : Option Bool :=
  if token_in = p.token0 then some true
  else if token_in = p.token1 then some false
  else none

/-- One directed edge of the petgraph `DiGraph` (source node index, target
node index, and the `PoolEdge` weight). -/
structure DirEdge where
  src : Nat
  dst : Nat
  pool : PoolEdge
deriving Repr, DecidableEq

/-- Lookup in an association list, mirroring a hash-map `get`. -/
def lookupA {α : Type} [DecidableEq α] {β : Type} (k : α) : List (α × β) → Option β
  | [] => none
  | (k', v) :: rest => if k' = k then some v else lookupA k rest

/-- Insert-or-replace in an association list, mirroring a hash-map `insert`. -/
def insertA {α : Type} [DecidableEq α] {β : Type} (k : α) (v : β) :
    List (α × β) → List (α × β)
  | [] => [(k, v)]
  | (k', v') :: rest => if k' = k then (k, v) :: rest else (k', v') :: insertA k v rest

/-- Remove a key from an association list, mirroring a hash-map `remove`. -/
def eraseA {α : Type} [DecidableEq α] {β : Type} (k : α) :
    List (α × β) → List (α × β)
  | [] => []
  | (k', v') :: rest => if k' = k then eraseA k rest else (k', v') :: eraseA k rest

/-- Embedding of struct `PoolGraph` from `graph/pool_graph.rs`: the petgraph
`DiGraph` is a node arena plus an edge arena (`add_node`/`add_edge` append
and return dense indices), the two `DashMap` secondary indices are
association lists, and `last_update` is the stored timestamp. -/
structure PoolGraph where
  nodes : List TokenNode
  edges : List DirEdge
  token_index : List (Nat × Nat)
  pool_index : List (Nat × List (Nat × Nat))
  last_update : Nat
deriving Repr, DecidableEq

/-- Embedding of `PoolGraph::new`. -/
def PoolGraph.new : PoolGraph := ⟨[], [], [], [], 0⟩

/-- Embedding of `PoolGraph::get_or_create_node`: reuse the indexed node or
append a fresh one (petgraph `add_node` returns the next dense index). -/
def PoolGraph.get_or_create_node (g : PoolGraph) (token : TokenNode) :
    PoolGraph × Nat :=
  match lookupA token.address g.token_index with
  | some index => (g, index)
  | none =>
    let index := g.nodes.length
    ({ g with
        nodes := g.nodes ++ [token],
        token_index := insertA token.address index g.token_index }, index)

/-- Embedding of `PoolGraph::upsert_pool`: petgraph `add_edge` appends a new
edge to the edge arena (it never replaces a parallel edge), the `pool_index`
entry is replaced, and `last_update` is set to the current timestamp (passed
here as `now`). -/
def PoolGraph.upsert_pool (g : PoolGraph) (pool : PoolEdge)
    (token0_node token1_node : TokenNode) (now : Nat) : PoolGraph :=
  let r0 := g.get_or_create_node token0_node
  let r1 := r0.1.get_or_create_node token1_node
  let node0 := r0.2
  let node1 := r1.2
  { r1.1 with
      edges := r1.1.edges ++ [⟨node0, node1, pool⟩, ⟨node1, node0, pool⟩],
      pool_index := insertA pool.pool_id [(node0, node1), (node1, node0)] r1.1.pool_index,
      last_update := now }

/-- Embedding of `PoolGraph::get_pools_for_token`: all outgoing edge weights
of the node indexed by the address. -/
def PoolGraph.get_pools_for_token (g : PoolGraph) (token : Nat) : List PoolEdge :=
  match lookupA token g.token_index with
  | some node_index => (g.edges.filter (fun e => e.src = node_index)).map (·.pool)
  | none => []

/-- Embedding of `PoolGraph::get_pool`: first indexed edge pair, looked up in
the edge arena. -/
def PoolGraph.get_pool (g : PoolGraph) (pool_id : Nat) : Option PoolEdge :=
  match lookupA pool_id g.pool_index with
  | some indices =>
    match indices.head? with
    | some (src, dst) =>
      ((g.edges.find? (fun e => e.src = src ∧ e.dst = dst)).map (·.pool))
    | none => none
  | none => none

/-- Fuelled depth-first reachability over the directed edges, embedding
petgraph's `has_path_connecting` traversal. -/
def has_path_aux (edges : List DirEdge) : Nat → List Nat → List Nat → Nat → Bool
  | 0, _, _, _ => false
  | _ + 1, [], _, _ => false
  | fuel + 1, n :: stack, visited, target =>
    if n = target then true
    else if visited.contains n then has_path_aux edges fuel stack visited target
    else
      let nexts := (edges.filter (fun e => e.src = n)).map (·.dst)
      has_path_aux edges fuel (nexts ++ stack) (n :: visited) target

/-- Embedding of `PoolGraph::has_path`: resolve both endpoints in the token
index, then run graph reachability (the fuel dominates the traversal's work). -/
def PoolGraph.has_path (g : PoolGraph) (fromA toA : Nat) : Bool :=
  match lookupA fromA g.token_index, lookupA toA g.token_index with
  | some start, some stop =>
    has_path_aux g.edges ((g.edges.length + 1) * (g.nodes.length + 1) + 1) [start] [] stop
  | _, _ => false

/-- Embedding of `PoolGraph::get_all_tokens`. -/
def PoolGraph.get_all_tokens (g : PoolGraph) : List TokenNode := g.nodes

/-- Embedding of struct `GraphStats` from `graph/pool_graph.rs`. -/
structure GraphStats where
  token_count : Nat
  pool_count : Nat
  last_update : Nat
deriving Repr, DecidableEq

/-- Embedding of `PoolGraph::stats`: `pool_count = edge_count / 2`. -/
def PoolGraph.stats (g : PoolGraph) : GraphStats :=
  ⟨g.nodes.length, g.edges.length / 2, g.last_update⟩

/-- The concrete pool used to exhibit the duplicate-edge behaviour of
`upsert_pool` (first state). -/
def c1pool : PoolEdge := ⟨7, 1, 2, 3000, 60, 1000000, 2 ^ 96, 0, 0⟩

/-- Second state for the same `pool_id`, with different liquidity. -/
def c1pool' : PoolEdge := { c1pool with liquidity := 5000000 }

/-- Token nodes for the C1 scenario. -/
def c1tokA : TokenNode := ⟨1, "A", 18, false⟩

/-- Second token node for the C1 scenario. -/
def c1tokB : TokenNode := ⟨2, "B", 18, false⟩

/-- Graph after upserting `pool_id = 7` twice (second time with new state). -/
def c1graph : PoolGraph :=
  ((PoolGraph.new.upsert_pool c1pool c1tokA c1tokB 100).upsert_pool
    c1pool' c1tokA c1tokB 200)

/-! ## LRU + TTL cache (`cache/lru_cache.rs`) -/

/-- Embedding of struct `CacheEntry` from `cache/lru_cache.rs`; `Instant` is
modelled as a natural-number timestamp. -/
structure CacheEntry (V : Type) where
  value : V
  inserted_at : Nat
  access_count : Nat
deriving Repr, DecidableEq

/-- Embedding of struct `LruCache` from `cache/lru_cache.rs`: the `DashMap`
is an association list, the `VecDeque` access order is a list whose head is
the deque front, and `ttl` is in the same time unit as the timestamps. -/
structure LruCache (K V : Type) where
  cache : List (K × CacheEntry V)
  access_order : List K
  max_size : Nat
  ttl : Nat
deriving Repr, DecidableEq

/-- Remove the first occurrence of a key from the access-order deque
(embedding of `position` + `remove` in `LruCache::get`). -/
def removeFirst {K : Type} [DecidableEq K] (key : K) : List K → List K
  | [] => []
  | k :: rest => if k = key then rest else k :: removeFirst key rest

/-- Embedding of `LruCache::get`, with the clock passed explicitly: a hit
bumps the access count and moves the key to the back of the deque; an entry
whose age reaches the TTL is removed and reported as a miss. -/
def LruCache.get {K V : Type} [DecidableEq K] (c : LruCache K V) (now : Nat)
    (key : K) : Option V × LruCache K V :=
  match lookupA key c.cache with
  | some entry =>
    if now - entry.inserted_at < c.ttl then
      let entry' := { entry with access_count := entry.access_count + 1 }
      (some entry.value,
        { c with
            cache := insertA key entry' c.cache,
            access_order := removeFirst key c.access_order ++ [key] })
    else
      (none, { c with cache := eraseA key c.cache })
  | none => (none, c)

/-- Embedding of `LruCache::evict_lru`: pop the front of the access-order
deque and remove that key from the map. -/
def LruCache.evict_lru {K V : Type} [DecidableEq K] (c : LruCache K V) :
    LruCache K V :=
  match c.access_order with
  | [] => c
  | key :: rest => { c with cache := eraseA key c.cache, access_order := rest }

/-- Embedding of `LruCache::insert`: evict the LRU entry when at capacity,
then install the entry with `inserted_at = now` and append the key to the
deque. -/
def LruCache.insert {K V : Type} [DecidableEq K] (c : LruCache K V) (now : Nat)
    (key : K) (value : V) : LruCache K V :=
  let c := if c.max_size ≤ c.cache.length then c.evict_lru else c
  { c with
      cache := insertA key ⟨value, now, 0⟩ c.cache,
      access_order := c.access_order ++ [key] }

/-! ## Routes and errors (`routing/route.rs`, `utils/error.rs`) -/

/-- Embedding of the `RouterError` variants reachable from the verified
code paths (`utils/error.rs`); the two `InsufficientLiquidity` payloads are
the decimal strings produced by `to_string()`. -/
inductive RouterError where
  | noRouteFound (fromA toA : Nat)
  | insufficientLiquidity (required available : String)
  | internalError (msg : String)
deriving Repr, DecidableEq

/-- Embedding of struct `RouteHop` from `routing/route.rs`. -/
structure RouteHop where
  pool : PoolEdge
  token_in : Nat
  token_out : Nat
  amount_in : Nat
  amount_out : Nat
deriving Repr

/-- Embedding of struct `Route` from `routing/route.rs`; `price_impact` is
the `f64` field, kept as a `Float` that no verified property inspects. -/
structure Route where
  hops : List RouteHop
  total_amount_in : Nat
  total_amount_out : Nat
  price_impact : Float
  gas_estimate : Nat
deriving Repr

/-- Embedding of struct `SplitRoute` from `routing/route.rs`: a list of
`(route, percentage)` pairs plus aggregates. -/
structure SplitRoute where
  routes : List (Route × Nat)
  total_amount_in : Nat
  total_amount_out : Nat
  combined_price_impact : Float
  total_gas_estimate : Nat
deriving Repr

/-- Embedding of `SplitRoute::single`. -/
def SplitRoute.single (route : Route) : SplitRoute :=
  ⟨[(route, 100)], route.total_amount_in, route.total_amount_out,
    route.price_impact, route.gas_estimate⟩

/-- Boolean success test on `Except`, mirroring `Result::is_ok`. -/
def isOkE {ε α : Type} : Except ε α → Bool
  | .ok _ => true
  | .error _ => false

/-! ## Single-hop search (`routing/single_hop.rs`) -/

/-- Embedding of `calculate_price_impact`: identical private helpers exist
in `routing/single_hop.rs` and `routing/multi_hop.rs`; the `f64` arithmetic
is kept as `Float`. -/
def calculate_price_impact (amount_in amount_out : Nat) : Float :=
  if amount_in = 0 ∨ amount_out = 0 then 0.0
  else
    let in_f := Float.ofNat amount_in
    let out_f := Float.ofNat amount_out
    min (Float.abs (in_f / out_f - 1.0) * 100.0) 100.0

/-- Embedding of `estimate_swap_gas` from `routing/single_hop.rs`. -/
def estimate_swap_gas (pool : PoolEdge) : Nat :=
  100000 + (if pool.hook_address ≠ 0 then 50000 else 0) +
    (if 10000 ≤ pool.fee then 5000 else 0)

/-- Embedding of `calculate_amount_out` from `routing/single_hop.rs`:
CLMM output via `compute_swap_step`, rejecting zero liquidity and any output
below the 100-unit dust floor.  `t2s` is the `tick_to_sqrt_price_x96`
projection. -/
def calculate_amount_out (t2s : Int → Nat) (pool : PoolEdge) (amount_in : Nat)
    (zero_for_one : Bool) : Except RouterError Nat :=
  if pool.liquidity = 0 then
    .error (.insufficientLiquidity (toString amount_in) "0")
  else
    let sqrt_price_target :=
      if zero_for_one then t2s (pool.tick - pool.tick_spacing)
      else t2s (pool.tick + pool.tick_spacing)
    let step := compute_swap_step pool.sqrt_price_x96 sqrt_price_target
      pool.liquidity amount_in pool.fee
    if step.amount_out < 100 then
      .error (.insufficientLiquidity (toString amount_in) (toString step.amount_out))
    else .ok step.amount_out

/-- Embedding of `simulate_swap_through_pool` from `routing/single_hop.rs`. -/
def simulate_swap_through_pool (t2s : Int → Nat) (pool : PoolEdge)
    (token_in _token_out : Nat) (amount_in : Nat) : Except RouterError (Nat × Nat) :=
  match pool.zero_for_one token_in with
  | none => .error (.internalError "Token not in pool")
  | some zero_for_one =>
    match calculate_amount_out t2s pool amount_in zero_for_one with
    | .error e => .error e
    | .ok amount_out => .ok (amount_out, estimate_swap_gas pool)

/-- One iteration of the candidate loop in `find_best_single_hop_route`:
the accumulator carries `(best_route, best_output)`. -/
def single_hop_step (t2s : Int → Nat) (token_in token_out amount_in : Nat)
    (acc : Option Route × Nat) (pool : PoolEdge) : Option Route × Nat :=
  match pool.other_token token_in with
  | some other_token =>
    if other_token = token_out then
      match simulate_swap_through_pool t2s pool token_in token_out amount_in with
      | .ok (amount_out, gas_estimate) =>
        if acc.2 < amount_out then
          (some ⟨[⟨pool, token_in, token_out, amount_in, amount_out⟩],
            amount_in, amount_out,
            calculate_price_impact amount_in amount_out, gas_estimate⟩,
           amount_out)
        else acc
      | .error _ => acc
    else acc
  | none => acc

/-- Embedding of `find_best_single_hop_route` from `routing/single_hop.rs`. -/
def find_best_single_hop_route (t2s : Int → Nat) (g : PoolGraph)
    (token_in token_out amount_in : Nat) : Except RouterError Route :=
  let pools_from_in := g.get_pools_for_token token_in
  let best := pools_from_in.foldl (single_hop_step t2s token_in token_out amount_in)
    (none, 0)
  match best.1 with
  | some route => .ok route
  | none => .error (.noRouteFound token_in token_out)

/-- Acceptance test for one candidate pool of the single-hop search: the
pool connects `token_in` to `token_out` and its simulation succeeds (which
requires the output to clear the dust floor). -/
def single_hop_acceptedB (t2s : Int → Nat) (token_in token_out amount_in : Nat)
    (pool : PoolEdge) : Bool :=
  (pool.other_token token_in == some token_out) &&
    isOkE (simulate_swap_through_pool t2s pool token_in token_out amount_in)

/-! ## Split optimiser (`routing/split.rs`) -/

/-- Constant `MAX_SPLITS` from `utils/types.rs`. -/
def MAX_SPLITS : Nat := 3

/-- Embedding of `simulate_route_output` from `routing/split.rs`: linear
scaling of the route's recorded output.  The Rust code computes the scale
through `f64`; the embedding uses the exact integer value
`totalOut * amount / totalIn`, which is the same linear model with floor
rounding and is treated opaquely by every theorem that mentions it. -/
def simulate_route_output (route : Route) (amount : Nat) : Nat :=
  if amount = 0 then 0
  else if route.total_amount_in = 0 then 0
  else route.total_amount_out * amount / route.total_amount_in

/-- Embedding of `scale_route` from `routing/split.rs`. -/
def scale_route (route : Route) (new_amount : Nat) : Route :=
  let new_output := simulate_route_output route new_amount
  let scale_factor : Float :=
    if route.total_amount_in = 0 then 1.0
    else Float.ofNat new_amount / Float.ofNat route.total_amount_in
  { route with
      total_amount_in := new_amount,
      total_amount_out := new_output,
      price_impact := route.price_impact * Float.sqrt scale_factor }

/-- Embedding of `calculate_combined_price_impact` from `routing/split.rs`. -/
def calculate_combined_price_impact (routes : List (Route × Nat)) : Float :=
  if routes.isEmpty then 0.0
  else
    (routes.map (fun rp => rp.1.price_impact * (Float.ofNat rp.2 / 100.0))).foldl
      (· + ·) 0.0

/-- Accumulator of the two-route grid search
(`best_output`, `best_split`, `best_amounts` in `optimize_two_route_split`). -/
structure SplitBest2 where
  best_output : Nat
  best_split : Nat × Nat
  best_amounts : Nat × Nat
deriving Repr, DecidableEq

/-- The two-route grid `(0..=100).step_by(5)`. -/
def two_route_candidates : List Nat := (List.range 21).map (5 * ·)

/-- One grid point of `optimize_two_route_split`: skip under-5% shares,
split the amount, simulate both sides linearly, and keep the allocation when
it strictly improves the best output. -/
def two_route_step (route_a route_b : Route) (total_amount : Nat)
    (acc : SplitBest2) (split_a : Nat) : SplitBest2 :=
  let split_b := 100 - split_a
  if split_a < 5 ∧ 0 < split_a then acc
  else if split_b < 5 ∧ 0 < split_b then acc
  else
    let amount_a := if split_a = 0 then 0 else total_amount * split_a / 100
    let amount_b := total_amount - amount_a
    let output_a := if 0 < split_a then simulate_route_output route_a amount_a else 0
    let output_b := if 0 < split_b then simulate_route_output route_b amount_b else 0
    let total_output := output_a + output_b
    if acc.best_output < total_output then
      ⟨total_output, (split_a, split_b), (amount_a, amount_b)⟩
    else acc

/-- The `best` local of `optimize_two_route_split`: the full 5% grid fold,
started from `(0, (100, 0), (ZERO, ZERO))`. -/
def two_route_best (route_a route_b : Route) (total_amount : Nat) : SplitBest2 :=
  two_route_candidates.foldl (two_route_step route_a route_b total_amount)
    ⟨0, (100, 0), (0, 0)⟩

/-- The `split_routes` local of `optimize_two_route_split`: one scaled copy
per non-zero share. -/
def two_route_split_routes (route_a route_b : Route) (total_amount : Nat) :
    List (Route × Nat) :=
  (if 0 < (two_route_best route_a route_b total_amount).best_split.1 then
    [(scale_route route_a (two_route_best route_a route_b total_amount).best_amounts.1,
      (two_route_best route_a route_b total_amount).best_split.1)] else []) ++
  (if 0 < (two_route_best route_a route_b total_amount).best_split.2 then
    [(scale_route route_b (two_route_best route_a route_b total_amount).best_amounts.2,
      (two_route_best route_a route_b total_amount).best_split.2)] else [])

/-- Embedding of `optimize_two_route_split` from `routing/split.rs`; its
`best` and `split_routes` locals are hoisted into the two definitions
above. -/
def optimize_two_route_split (route_a route_b : Route) (total_amount : Nat) :
    Except RouterError SplitRoute :=
  .ok ⟨two_route_split_routes route_a route_b total_amount, total_amount,
    (two_route_best route_a route_b total_amount).best_output,
    calculate_combined_price_impact (two_route_split_routes route_a route_b total_amount),
    ((two_route_split_routes route_a route_b total_amount).map
      (fun rp => rp.1.gas_estimate)).sum⟩

/-- Accumulator of the three-route grid search. -/
structure SplitBest3 where
  best_output : Nat
  best_split : Nat × Nat × Nat
  best_amounts : Nat × Nat × Nat
deriving Repr, DecidableEq

/-- The three-route grid: `split_a` on `(0..=100).step_by(10)` and `split_b`
on `(0..=100-split_a).step_by(10)`. -/
def three_route_candidates : List (Nat × Nat) :=
  ((List.range 11).map (10 * ·)).flatMap
    (fun split_a => ((List.range ((100 - split_a) / 10 + 1)).map (10 * ·)).map
      (fun split_b => (split_a, split_b)))

/-- One grid point of `optimize_three_route_split`: skip under-10% shares,
split the amount three ways, simulate linearly, and keep strict
improvements. -/
def three_route_step (route_a route_b route_c : Route) (total_amount : Nat)
    (acc : SplitBest3) (ab : Nat × Nat) : SplitBest3 :=
  let split_a := ab.1
  let split_b := ab.2
  let split_c := 100 - split_a - split_b
  if 0 < split_a ∧ split_a < 10 then acc
  else if 0 < split_b ∧ split_b < 10 then acc
  else if 0 < split_c ∧ split_c < 10 then acc
  else
    let amount_a := if split_a = 0 then 0 else total_amount * split_a / 100
    let amount_b := if split_b = 0 then 0 else total_amount * split_b / 100
    let amount_c := total_amount - amount_a - amount_b
    let output_a := if 0 < split_a then simulate_route_output route_a amount_a else 0
    let output_b := if 0 < split_b then simulate_route_output route_b amount_b else 0
    let output_c := if 0 < split_c then simulate_route_output route_c amount_c else 0
    let total_output := output_a + output_b + output_c
    if acc.best_output < total_output then
      ⟨total_output, (split_a, split_b, split_c), (amount_a, amount_b, amount_c)⟩
    else acc

/-- The `best` local of `optimize_three_route_split`: the full 10% grid
fold, started from all zeroes. -/
def three_route_best (route_a route_b route_c : Route) (total_amount : Nat) :
    SplitBest3 :=
  three_route_candidates.foldl
    (three_route_step route_a route_b route_c total_amount) ⟨0, (0, 0, 0), (0, 0, 0)⟩

/-- The `split_routes` local of `optimize_three_route_split`. -/
def three_route_split_routes (route_a route_b route_c : Route)
    (total_amount : Nat) : List (Route × Nat) :=
  (if 0 < (three_route_best route_a route_b route_c total_amount).best_split.1 then
    [(scale_route route_a
        (three_route_best route_a route_b route_c total_amount).best_amounts.1,
      (three_route_best route_a route_b route_c total_amount).best_split.1)] else []) ++
  (if 0 < (three_route_best route_a route_b route_c total_amount).best_split.2.1 then
    [(scale_route route_b
        (three_route_best route_a route_b route_c total_amount).best_amounts.2.1,
      (three_route_best route_a route_b route_c total_amount).best_split.2.1)] else []) ++
  (if 0 < (three_route_best route_a route_b route_c total_amount).best_split.2.2 then
    [(scale_route route_c
        (three_route_best route_a route_b route_c total_amount).best_amounts.2.2,
      (three_route_best route_a route_b route_c total_amount).best_split.2.2)] else [])

/-- Embedding of `optimize_three_route_split` from `routing/split.rs`; its
`best` and `split_routes` locals are hoisted into the two definitions
above. -/
def optimize_three_route_split (route_a route_b route_c : Route)
    (total_amount : Nat) : Except RouterError SplitRoute :=
  .ok ⟨three_route_split_routes route_a route_b route_c total_amount, total_amount,
    (three_route_best route_a route_b route_c total_amount).best_output,
    calculate_combined_price_impact
      (three_route_split_routes route_a route_b route_c total_amount),
    ((three_route_split_routes route_a route_b route_c total_amount).map
      (fun rp => rp.1.gas_estimate)).sum⟩

/-- Embedding of `optimize_split_route` from `routing/split.rs`: empty input
errors, a singleton is returned whole, and longer lists are truncated to the
first `MAX_SPLITS` routes before the grid search (two routes use the 5% grid,
three or more use the 10% grid on the first three). -/
def optimize_split_route (routes : List Route) (total_amount : Nat) :
    Except RouterError SplitRoute :=
  match routes with
  | [] => .error (.internalError "No routes provided for split optimization")
  | [route] => .ok (SplitRoute.single route)
  | [route_a, route_b] => optimize_two_route_split route_a route_b total_amount
  | route_a :: route_b :: route_c :: _ =>
    optimize_three_route_split route_a route_b route_c total_amount

/-- Sum of the percentages of a `SplitRoute`. -/
def pct_sum (s : SplitRoute) : Nat := (s.routes.map (·.2)).sum

/-- Percentage sum of a split result, `none` on error. -/
def pctOfResult : Except RouterError SplitRoute → Option Nat
  | .ok s => some (pct_sum s)
  | .error _ => none

/-- Output amount of a split result, `none` on error. -/
def outOfResult : Except RouterError SplitRoute → Option Nat
  | .ok s => some s.total_amount_out
  | .error _ => none

/-- The total simulated output of one two-route grid point (`0` when the
point is skipped by the under-5% rule). -/
def two_route_value (route_a route_b : Route) (total_amount split_a : Nat) : Nat :=
  let split_b := 100 - split_a
  if split_a < 5 ∧ 0 < split_a then 0
  else if split_b < 5 ∧ 0 < split_b then 0
  else
    let amount_a := if split_a = 0 then 0 else total_amount * split_a / 100
    let amount_b := total_amount - amount_a
    (if 0 < split_a then simulate_route_output route_a amount_a else 0) +
    (if 0 < split_b then simulate_route_output route_b amount_b else 0)

/-- The total simulated output of one three-route grid point (`0` when the
point is skipped by the under-10% rule). -/
def three_route_value (route_a route_b route_c : Route) (total_amount : Nat)
    (ab : Nat × Nat) : Nat :=
  let split_a := ab.1
  let split_b := ab.2
  let split_c := 100 - split_a - split_b
  if 0 < split_a ∧ split_a < 10 then 0
  else if 0 < split_b ∧ split_b < 10 then 0
  else if 0 < split_c ∧ split_c < 10 then 0
  else
    let amount_a := if split_a = 0 then 0 else total_amount * split_a / 100
    let amount_b := if split_b = 0 then 0 else total_amount * split_b / 100
    let amount_c := total_amount - amount_a - amount_b
    (if 0 < split_a then simulate_route_output route_a amount_a else 0) +
    (if 0 < split_b then simulate_route_output route_b amount_b else 0) +
    (if 0 < split_c then simulate_route_output route_c amount_c else 0)

/-! ## Multi-hop search (`routing/multi_hop.rs`) -/

/-- Constant `MAX_HOPS` from `utils/types.rs`. -/
def MAX_HOPS : Nat := 4

/-- Embedding of `estimate_gas` from `routing/multi_hop.rs` (no fee-tier
surcharge, unlike the single-hop variant). -/
def estimate_gas (pool : PoolEdge) : Nat :=
  100000 + (if pool.hook_address ≠ 0 then 50000 else 0)

/-- Embedding of `simulate_swap` from `routing/multi_hop.rs`: ranking
simulation through one pool with the fixed `zero_for_one = true`
heuristic. -/
def simulate_swap (t2s : Int → Nat) (pool : PoolEdge) (amount_in : Nat) : Nat :=
  if amount_in = 0 ∨ pool.liquidity = 0 then 0
  else
    (compute_swap_step pool.sqrt_price_x96 (t2s (pool.tick - pool.tick_spacing))
      pool.liquidity amount_in pool.fee).amount_out

/-- Embedding of struct `PathState` from `routing/multi_hop.rs`; the
`HashSet` of visited tokens is a list managed as a set. -/
structure PathState where
  token : Nat
  amount_out : Nat
  path : List PoolEdge
  visited_tokens : List Nat
  gas_used : Nat
deriving Repr

/-- Boolean membership in a token list (`HashSet::contains`). -/
def memb (x : Nat) : List Nat → Bool
  | [] => false
  | y :: ys => (y = x) || memb x ys

/-- Embedding of `HashSet::insert` on the visited-token set. -/
def set_insert (x : Nat) (l : List Nat) : List Nat :=
  if memb x l then l else x :: l

/-- Pop a maximal element by `amount_out` — the only field compared by the
`Ord` instance driving the Rust `BinaryHeap`; ties are broken by position,
as the heap breaks them arbitrarily. -/
def pop_max : List PathState → Option (PathState × List PathState)
  | [] => none
  | s :: rest =>
    match pop_max rest with
    | none => some (s, [])
    | some (m, rest') =>
      if s.amount_out < m.amount_out then some (m, s :: rest') else some (s, rest)

/-- The hop-construction loop of `build_route`: walk the path pools from the
current token, simulating each hop and threading the produced amount. -/
def build_hops (t2s : Int → Nat) :
    List PoolEdge → Nat → Nat → Except RouterError (List RouteHop)
  | [], _, _ => .ok []
  | pool :: rest, current_token, current_amount =>
    match pool.other_token current_token with
    | none => .error (.internalError "Token not in pool")
    | some token_out =>
      match build_hops t2s rest token_out (simulate_swap t2s pool current_amount) with
      | .error e => .error e
      | .ok hops =>
        .ok (⟨pool, current_token, token_out, current_amount,
          simulate_swap t2s pool current_amount⟩ :: hops)

/-- Embedding of `build_route` from `routing/multi_hop.rs`: the start token
is inferred from the first pool via the visited set, and the hop loop is
hoisted into `build_hops`. -/
def build_route (t2s : Int → Nat) (state : PathState) (initial_amount : Nat) :
    Except RouterError Route :=
  match state.path.head? with
  | none => .error (.internalError "Empty path")
  | some first_pool =>
    let current_token :=
      if memb first_pool.token0 state.visited_tokens then first_pool.token0
      else first_pool.token1
    match build_hops t2s state.path current_token initial_amount with
    | .error e => .error e
    | .ok hops =>
      .ok ⟨hops, initial_amount, state.amount_out,
        calculate_price_impact initial_amount state.amount_out, state.gas_used⟩

/-- One pool of the neighbour-expansion loop: skip pools not containing the
current token, already-visited targets, and dust outputs; otherwise push the
extended state. -/
def expand_step (t2s : Int → Nat) (state : PathState) (acc : List PathState)
    (pool : PoolEdge) : List PathState :=
  match pool.other_token state.token with
  | none => acc
  | some next_token =>
    if memb next_token state.visited_tokens then acc
    else
      if simulate_swap t2s pool state.amount_out < 100 then acc
      else
        ⟨next_token, simulate_swap t2s pool state.amount_out,
          state.path ++ [pool], set_insert next_token state.visited_tokens,
          state.gas_used + estimate_gas pool⟩ :: acc

/-- Neighbour expansion of one popped state — the `for pool in
get_pools_for_token` loop. -/
def expand_neighbors (t2s : Int → Nat) (state : PathState)
    (pools : List PoolEdge) : List PathState :=
  pools.foldl (expand_step t2s state) []

/-- The pruning test of the search loop: a popped state loses when its
output is below 95% of the best output already seen at its token. -/
def pruned (best_per_token : List (Nat × Nat)) (token amount_out : Nat) : Bool :=
  match lookupA token best_per_token with
  | some best_amount => amount_out < best_amount * 95 / 100
  | none => false

/-- Fuelled main loop of `find_top_routes`: pop the best state, materialise
routes at the destination (stopping once `top_n` routes were emitted), prune
against `best_per_token` with the 5% tolerance, and expand neighbours within
the hop budget. -/
def search_loop (t2s : Int → Nat) (g : PoolGraph)
    (token_out amount_in max_hops top_n : Nat) :
    Nat → List PathState → List (Nat × Nat) → List Route → List Route
  | 0, _, _, completed => completed
  | fuel + 1, heap, best_per_token, completed =>
    match pop_max heap with
    | none => completed
    | some (state, rest) =>
      if state.token = token_out then
        match build_route t2s state amount_in with
        | .ok route =>
          if top_n ≤ completed.length + 1 then completed ++ [route]
          else search_loop t2s g token_out amount_in max_hops top_n fuel rest
            best_per_token (completed ++ [route])
        | .error _ =>
          search_loop t2s g token_out amount_in max_hops top_n fuel rest
            best_per_token completed
      else
        if pruned best_per_token state.token state.amount_out then
          search_loop t2s g token_out amount_in max_hops top_n fuel rest
            best_per_token completed
        else
          if max_hops ≤ state.path.length then
            search_loop t2s g token_out amount_in max_hops top_n fuel rest
              (insertA state.token state.amount_out best_per_token) completed
          else
            search_loop t2s g token_out amount_in max_hops top_n fuel
              (expand_neighbors t2s state (g.get_pools_for_token state.token) ++ rest)
              (insertA state.token state.amount_out best_per_token) completed

/-- Descending order on routes by `total_amount_out` (the comparator
`|a, b| b.total_amount_out.cmp(&a.total_amount_out)` of the final sort). -/
def route_ge (a b : Route) : Prop := b.total_amount_out ≤ a.total_amount_out

instance : DecidableRel route_ge := fun a b =>
  Nat.decLe b.total_amount_out a.total_amount_out

instance : IsTotal Route route_ge := ⟨fun _ _ => Nat.le_total _ _⟩

instance : IsTrans Route route_ge := ⟨fun _ _ _ hab hbc => le_trans hbc hab⟩

/-- The final stable sort by descending output. -/
def sort_routes_desc (l : List Route) : List Route := List.insertionSort route_ge l

/-- Fuel dominating the iteration count of the bounded best-first search:
every state's visited set grows strictly along a path of length at most
`MAX_HOPS`, with branching bounded by the edge count. -/
def search_fuel (g : PoolGraph) (top_n : Nat) : Nat :=
  (g.edges.length + 2) ^ (MAX_HOPS + 2) * (top_n + 1) + 2

/-- Embedding of `find_top_routes` from `routing/multi_hop.rs`: clamp the
hop budget to `MAX_HOPS`, bail out early without a path, run the best-first
search, and sort the completed routes by descending output. -/
def find_top_routes (t2s : Int → Nat) (g : PoolGraph)
    (token_in token_out amount_in max_hops top_n : Nat) : List Route :=
  if !(g.has_path token_in token_out) then []
  else
    sort_routes_desc (search_loop t2s g token_out amount_in
      (min max_hops MAX_HOPS) top_n (search_fuel g top_n)
      [⟨token_in, amount_in, [], [token_in], 0⟩] [] [])

/-- Embedding of `find_best_multi_hop_route` from `routing/multi_hop.rs`. -/
def find_best_multi_hop_route (t2s : Int → Nat) (g : PoolGraph)
    (token_in token_out amount_in max_hops : Nat) : Except RouterError Route :=
  match (find_top_routes t2s g token_in token_out amount_in max_hops 1).head? with
  | some route => .ok route
  | none => .error (.noRouteFound token_in token_out)

/-- Token sequence of a route: `token_in` of the first hop followed by every
hop's `token_out`. -/
def route_tokens (r : Route) : List Nat :=
  match r.hops with
  | [] => []
  | h :: _ => h.token_in :: r.hops.map (·.token_out)

/-- Adjacent hops chain: each hop's `token_out` is the next hop's
`token_in`. -/
def hops_chain : List RouteHop → Bool
  | [] => true
  | [_] => true
  | a :: b :: rest => (a.token_out = b.token_in) && hops_chain (b :: rest)

/-- Boolean no-duplicates check on a token list. -/
def nodupb : List Nat → Bool
  | [] => true
  | x :: xs => (!memb x xs) && nodupb xs

/-- Well-formedness of a produced route: consecutive hops chain and no token
address repeats in the token sequence. -/
def route_ok (r : Route) : Bool := hops_chain r.hops && nodupb (route_tokens r)

/-- Follow a pool path from a token through `other_token`, collecting the
tokens reached — the abstract chain underlying every search state. -/
def path_chain (cur : Nat) : List PoolEdge → Option (List Nat)
  | [] => some []
  | p :: ps =>
    (p.other_token cur).bind (fun nxt => (path_chain nxt ps).map (nxt :: ·))

/-- Last element of a token list, with a default for the empty list. -/
def lastd (d : Nat) : List Nat → Nat
  | [] => d
  | x :: xs => lastd x xs

/-- Invariant carried by every state of the best-first search started at
`token_in`: the pool path traces a duplicate-free token chain from
`token_in` ending at the state's token, every chain token is in the visited
set, and the path respects the hop budget. -/
def StateInv (token_in max_hops : Nat) (s : PathState) : Prop :=
  ∃ ts, path_chain token_in s.path = some ts ∧
    nodupb (token_in :: ts) = true ∧
    s.token = lastd token_in ts ∧
    (∀ a ∈ token_in :: ts, memb a s.visited_tokens = true) ∧
    s.path.length ≤ max_hops

/-- Pool whose `token0` is the destination: `build_route` infers the start
token as `token0` (both pool endpoints are always in the visited set), so
the one emitted route runs `2 → 1` although the request was `1 → 2`. -/
def c2pool : PoolEdge := ⟨7, 2, 1, 3000, 60, 2 ^ 60, 2 ^ 96, 0, 0⟩

/-- Single-pool graph for the C2 counterexample. -/
def c2graph : PoolGraph :=
  PoolGraph.new.upsert_pool c2pool ⟨2, "B", 18, false⟩ ⟨1, "A", 18, false⟩ 50

/-- Concrete tick projection for the C2 counterexample (target below the
current price, so the `zero_for_one` ranking heuristic produces output). -/
def c2t2s : Int → Nat := fun _ => 2 ^ 95

/-- The claim instance of C3 at the failing input: with `fee_pips = 3000`,
`sqrtCurrent = 2^96`, `sqrtTarget = 2^97`, `liquidity = 997` and
`amountRemaining = 1000` the step reaches the target with `amountIn = 997`
and `feeAmount = floor(997*3000/997000) + 1 = 4`, so
`amountIn + feeAmount = 1001 > 1000 = amountRemaining`: the input accounting
does not close. -/
theorem compute_swap_step_fee_overshoot :
    (compute_swap_step (2 ^ 96) (2 ^ 97) 997 1000 3000).amount_in = 997 ∧
    (compute_swap_step (2 ^ 96) (2 ^ 97) 997 1000 3000).fee_amount = 4 ∧
    ¬ ((compute_swap_step (2 ^ 96) (2 ^ 97) 997 1000 3000).amount_in +
        (compute_swap_step (2 ^ 96) (2 ^ 97) 997 1000 3000).fee_amount ≤ 1000) := by
  refine ⟨?_, ?_, ?_⟩ <;> decide

/-- Fee subtracted from the fee denominator is nonzero whenever the fee is
strictly below the denominator, so the fee-branch divisor cannot vanish for
`fee_pips < 1_000_000`. -/
theorem wsub_fee_denom_ne_zero (f : Nat) (hf : f < 1000000) :
    wsub 1000000 f ≠ 0 := by
  unfold wsub U256MOD
  have h1 : f % 2 ^ 256 = f := Nat.mod_eq_of_lt (lt_trans hf (by norm_num))
  have h2 : (1000000 : Nat) % 2 ^ 256 = 1000000 := Nat.mod_eq_of_lt (by norm_num)
  rw [h1, h2]
  have h3 : 1000000 + 2 ^ 256 - f = 2 ^ 256 + (1000000 - f) := by omega
  rw [h3, Nat.add_mod_left, Nat.mod_eq_of_lt (show 1000000 - f < 2 ^ 256 by omega)]
  omega

/-- Claim C9, corrected: `compute_swap_step` never panics for fee pips
strictly below `1_000_000` (there the only unguarded divisor
`fee_denom - fee_pips` is nonzero, and every other arithmetic operation is
total under release-mode wrapping semantics), and whenever
`amountRemaining = 0` or `liquidity = 0` it returns
`amountIn = amountOut = feeAmount = 0` with `sqrtNext = sqrtCurrent`.  At
`fee_pips = 1_000_000`, inside the frozen claim's domain, totality fails:
see `compute_swap_step_div_by_zero_at_max_fee`. -/
theorem compute_swap_step_no_panic_below_max_fee
    (sqrt_price_current sqrt_price_target liquidity amount_remaining fee_pips : Nat) :
    (fee_pips < 1000000 →
      compute_swap_step_panics sqrt_price_current sqrt_price_target liquidity
        amount_remaining fee_pips = false) ∧
    ((amount_remaining = 0 ∨ liquidity = 0) →
      compute_swap_step sqrt_price_current sqrt_price_target liquidity
          amount_remaining fee_pips =
        ⟨sqrt_price_current, 0, 0, 0⟩) := by
  constructor
  · intro hf
    by_cases h0 : amount_remaining = 0 ∨ liquidity = 0
    · unfold compute_swap_step_panics
      rw [if_pos h0]
    · have hd : (decide (wsub 1000000 fee_pips = 0)) = false :=
        decide_eq_false (wsub_fee_denom_ne_zero fee_pips hf)
      simp only [compute_swap_step_panics, if_neg h0, hd, ite_self]
  · intro h
    unfold compute_swap_step
    rw [if_pos h]

/-- Witness for C9's corrected theorem: at `fee_pips = 3000 < 1_000_000` no
panic path is reached, and at zero liquidity the short-circuit fires. -/
theorem compute_swap_step_no_panic_below_max_fee_witness :
    compute_swap_step_panics (2 ^ 96) (2 ^ 97) 997 1000 3000 = false ∧
    compute_swap_step (2 ^ 96) (2 ^ 95) 0 1000000 3000 = ⟨2 ^ 96, 0, 0, 0⟩ :=
  ⟨(compute_swap_step_no_panic_below_max_fee (2 ^ 96) (2 ^ 97) 997 1000 3000).1
      (by norm_num),
   (compute_swap_step_no_panic_below_max_fee (2 ^ 96) (2 ^ 95) 0 1000000 3000).2
      (Or.inr rfl)⟩

/-- Counterexample to claim C9 as frozen: `fee_pips = 1_000_000` lies inside
the claimed domain ("a fee in pips at most 1,000,000"), yet with equal sqrt
prices (so `amount_in_max = 0` and the reaches-target branch fires) and
nonzero amount and liquidity the fee computation divides `amount_in * fee`
by `fee_denom - fee = 0`; Rust `U256` division by zero panics even in
release builds, so `compute_swap_step` is not total over the claimed
inputs. -/
theorem compute_swap_step_div_by_zero_at_max_fee :
    compute_swap_step_panics (2 ^ 96) (2 ^ 96) 1000000 1000 1000000 = true := by
  decide

/-- The failing evaluation for claim C1: after upserting the same `pool_id`
twice, the graph holds four directed edges for that `pool_id` (two of them
still carrying the stale first state) and `stats().pool_count = 2`, although
only one distinct `pool_id` was ever upserted — `upsert_pool` uses petgraph
`add_edge`, which appends parallel edges instead of replacing the pool. -/
theorem upsert_pool_duplicates_edges :
    (c1graph.edges.filter (fun e => e.pool.pool_id = 7)).length = 4 ∧
    (c1graph.edges.filter (fun e => e.pool.liquidity = 1000000)).length = 2 ∧
    c1graph.stats.pool_count = 2 := by
  refine ⟨?_, ?_, ?_⟩ <;> decide

/-- Looking up the key just inserted into an association list yields the new
value. -/
theorem lookupA_insertA_self {α β : Type} [DecidableEq α] (k : α) (v : β) :
    ∀ l : List (α × β), lookupA k (insertA k v l) = some v := by
  intro l
  induction l with
  | nil => simp [insertA, lookupA]
  | cons hd tl ih =>
    by_cases h : hd.1 = k
    · simp [insertA, lookupA, h]
    · simp [insertA, lookupA, h, ih]

/-- Inserting a different key does not affect a lookup. -/
theorem lookupA_insertA_ne {α β : Type} [DecidableEq α] (k k' : α) (v : β)
    (h : k' ≠ k) :
    ∀ l : List (α × β), lookupA k (insertA k' v l) = lookupA k l := by
  intro l
  induction l with
  | nil => simp [insertA, lookupA, h]
  | cons hd tl ih =>
    by_cases h2 : hd.1 = k'
    · simp [insertA, lookupA, h2, h]
    · simp only [insertA, if_neg h2, lookupA]
      by_cases h3 : hd.1 = k
      · simp [h3]
      · simp [h3, ih]

/-- Lookup of an erased key misses. -/
theorem lookupA_eraseA_self {α β : Type} [DecidableEq α] (k : α) :
    ∀ l : List (α × β), lookupA k (eraseA k l) = none := by
  intro l
  induction l with
  | nil => simp [eraseA, lookupA]
  | cons hd tl ih =>
    by_cases h : hd.1 = k
    · simp [eraseA, h, ih]
    · simp [eraseA, lookupA, h, ih]

/-- Claim C7: (a) a `get` performed when the entry's age `now − insertedAt`
has reached the TTL returns a miss and removes the entry from the map;
(b) an `insert` performed with the map at or above `maxSize` evicts the key
at the head of the access-order deque: after the insert of a different key,
that head key is no longer in the map. -/
theorem lru_ttl_miss_and_lru_eviction {K V : Type} [DecidableEq K] :
    (∀ (c : LruCache K V) (now : Nat) (key : K) (entry : CacheEntry V),
      lookupA key c.cache = some entry →
      c.ttl ≤ now - entry.inserted_at →
      (c.get now key).1 = none ∧ lookupA key (c.get now key).2.cache = none) ∧
    (∀ (c : LruCache K V) (now : Nat) (key : K) (value : V) (h : K) (t : List K),
      c.max_size ≤ c.cache.length →
      c.access_order = h :: t →
      h ≠ key →
      lookupA h (c.insert now key value).cache = none) := by
  constructor
  · intro c now key entry hlook hexp
    have hcond : ¬ (now - entry.inserted_at < c.ttl) := not_lt.mpr hexp
    constructor
    · simp [LruCache.get, hlook, hcond]
    · simp [LruCache.get, hlook, hcond, lookupA_eraseA_self]
  · intro c now key value h t hsize horder hne
    simp only [LruCache.insert, if_pos hsize, LruCache.evict_lru, horder]
    rw [lookupA_insertA_ne h key _ (Ne.symm hne)]
    exact lookupA_eraseA_self h _

/-- Witness for C7's theorem: a concrete one-entry cache whose entry has
expired (part a), and a concrete full cache whose deque head is evicted by
an insert of a fresh key (part b). -/
theorem lru_ttl_miss_and_lru_eviction_witness :
    (((⟨[(1, ⟨42, 0, 0⟩)], [1], 8, 5⟩ : LruCache Nat Nat).get 10 1).1 = none ∧
      lookupA 1 (((⟨[(1, ⟨42, 0, 0⟩)], [1], 8, 5⟩ : LruCache Nat Nat).get 10 1)).2.cache
        = none) ∧
    lookupA 1 ((⟨[(1, ⟨42, 0, 0⟩)], [1], 1, 5⟩ : LruCache Nat Nat).insert 3 2 99).cache
      = none := by
  constructor
  · exact (lru_ttl_miss_and_lru_eviction (K := Nat) (V := Nat)).1
      ⟨[(1, ⟨42, 0, 0⟩)], [1], 8, 5⟩ 10 1 ⟨42, 0, 0⟩ rfl (by decide)
  · exact (lru_ttl_miss_and_lru_eviction (K := Nat) (V := Nat)).2
      ⟨[(1, ⟨42, 0, 0⟩)], [1], 1, 5⟩ 3 2 99 1 [] (by decide) rfl (by decide)

/-- Claim C10: with a positive TTL, a `get` performed right after a
sequential `insert` of `(key, value)` — including an insert at capacity that
triggers an eviction — returns `some value`; the embedding's `insert` is
total, so insertion never errors. -/
theorem lru_insert_then_get {K V : Type} [DecidableEq K]
    (c : LruCache K V) (now : Nat) (key : K) (value : V) (httl : 0 < c.ttl) :
    ((c.insert now key value).get now key).1 = some value := by
  have hcache : lookupA key (c.insert now key value).cache
      = some (⟨value, now, 0⟩ : CacheEntry V) := by
    simp only [LruCache.insert]
    exact lookupA_insertA_self key _ _
  have httl' : (c.insert now key value).ttl = c.ttl := by
    simp only [LruCache.insert]
    by_cases hs : c.max_size ≤ c.cache.length
    · simp only [if_pos hs, LruCache.evict_lru]
      cases c.access_order <;> rfl
    · simp [hs]
  simp [LruCache.get, hcache, httl', httl]

/-- Witness for C10's theorem: inserting into a full two-entry cache and
reading the key back. -/
theorem lru_insert_then_get_witness :
    (((⟨[(1, ⟨10, 0, 0⟩), (2, ⟨20, 0, 0⟩)], [1, 2], 2, 5⟩ :
        LruCache Nat Nat).insert 7 3 30).get 7 3).1 = some 30 :=
  lru_insert_then_get ⟨[(1, ⟨10, 0, 0⟩), (2, ⟨20, 0, 0⟩)], [1, 2], 2, 5⟩ 7 3 30
    (by decide)

/-- Every successful `calculate_amount_out` clears the 100-unit dust floor. -/
theorem calculate_amount_out_ge_100 (t2s : Int → Nat) (pool : PoolEdge)
    (amount_in : Nat) (zero_for_one : Bool) (out : Nat)
    (h : calculate_amount_out t2s pool amount_in zero_for_one = .ok out) :
    100 ≤ out := by
  simp only [calculate_amount_out] at h
  by_cases hliq : pool.liquidity = 0
  · rw [if_pos hliq] at h
    exact absurd h (by simp)
  · rw [if_neg hliq] at h
    by_cases hlt : (compute_swap_step pool.sqrt_price_x96
        (if zero_for_one then t2s (pool.tick - pool.tick_spacing)
          else t2s (pool.tick + pool.tick_spacing))
        pool.liquidity amount_in pool.fee).amount_out < 100
    · rw [if_pos hlt] at h
      exact absurd h (by simp)
    · rw [if_neg hlt] at h
      simp only [Except.ok.injEq] at h
      subst h
      exact le_of_not_lt hlt

/-- Every successful pool simulation clears the dust floor. -/
theorem simulate_swap_through_pool_ge_100 (t2s : Int → Nat) (pool : PoolEdge)
    (token_in token_out amount_in out gas : Nat)
    (h : simulate_swap_through_pool t2s pool token_in token_out amount_in
      = .ok (out, gas)) : 100 ≤ out := by
  cases hz : pool.zero_for_one token_in with
  | none => simp [simulate_swap_through_pool, hz] at h
  | some zfo =>
    cases hc : calculate_amount_out t2s pool amount_in zfo with
    | error e => simp [simulate_swap_through_pool, hz, hc] at h
    | ok o =>
      simp only [simulate_swap_through_pool, hz, hc, Except.ok.injEq,
        Prod.mk.injEq] at h
      obtain ⟨h1, h2⟩ := h
      subst h1
      exact calculate_amount_out_ge_100 _ _ _ _ _ hc

/-- Fold invariant of the single-hop candidate loop: any best route found so
far clears the dust floor and equals the tracked best output, a `none` best
has output `0`, and the best is `some` exactly when some processed candidate
was accepted. -/
theorem single_hop_fold_invariant (t2s : Int → Nat)
    (token_in token_out amount_in : Nat) (pools : List PoolEdge)
    (acc : Option Route × Nat)
    (hnone : acc.1 = none → acc.2 = 0)
    (hsome : ∀ r, acc.1 = some r → 100 ≤ r.total_amount_out) :
    (∀ r, (pools.foldl (single_hop_step t2s token_in token_out amount_in) acc).1
        = some r → 100 ≤ r.total_amount_out) ∧
    ((pools.foldl (single_hop_step t2s token_in token_out amount_in) acc).1.isSome
      = (acc.1.isSome ||
          pools.any (single_hop_acceptedB t2s token_in token_out amount_in))) := by
  induction pools generalizing acc with
  | nil => simpa using hsome
  | cons pool rest ih =>
    simp only [List.foldl_cons, List.any_cons]
    have hstep : single_hop_step t2s token_in token_out amount_in acc pool = acc ∧
          single_hop_acceptedB t2s token_in token_out amount_in pool = false ∨
        (∃ out gas, single_hop_acceptedB t2s token_in token_out amount_in pool = true ∧
          simulate_swap_through_pool t2s pool token_in token_out amount_in
            = .ok (out, gas) ∧
          single_hop_step t2s token_in token_out amount_in acc pool =
            if acc.2 < out then
              (some ⟨[⟨pool, token_in, token_out, amount_in, out⟩], amount_in, out,
                calculate_price_impact amount_in out, gas⟩, out)
            else acc) := by
      unfold single_hop_step single_hop_acceptedB
      cases hot : pool.other_token token_in with
      | none => exact Or.inl ⟨rfl, by simp [hot]⟩
      | some other =>
        by_cases hoth : other = token_out
        · cases hsim : simulate_swap_through_pool t2s pool token_in token_out amount_in with
          | ok p =>
            exact Or.inr ⟨p.1, p.2, by simp [hot, hoth, hsim, isOkE],
              by simp [hsim], by simp [hot, hoth, hsim]⟩
          | error e => exact Or.inl ⟨by simp [hot, hoth, hsim], by simp [hot, hoth, hsim, isOkE]⟩
        · exact Or.inl ⟨by simp [hot, hoth], by simp [hot, hoth]⟩
    rcases hstep with ⟨heq, hrej⟩ | ⟨out, gas, hacc, hsim, heq⟩
    · rw [heq, hrej]
      simpa using ih acc hnone hsome
    · rw [heq, hacc]
      have hout : 100 ≤ out := simulate_swap_through_pool_ge_100 _ _ _ _ _ _ _ hsim
      by_cases hlt : acc.2 < out
      · rw [if_pos hlt]
        have := ih (some ⟨[⟨pool, token_in, token_out, amount_in, out⟩], amount_in, out,
            calculate_price_impact amount_in out, gas⟩, out)
          (by simp) (by intro r hr; cases hr; simpa using hout)
        simpa using this
      · rw [if_neg hlt]
        have hsomeacc : acc.1.isSome = true := by
          cases hacc1 : acc.1 with
          | none =>
            exfalso
            have h0 : acc.2 = 0 := hnone hacc1
            exact hlt (by omega)
          | some r => rfl
        have := ih acc hnone hsome
        rw [this.2, hsomeacc]
        exact ⟨this.1, by simp⟩

/-- Claim C8: the single-hop search never returns a route whose output is
below the 100-unit dust floor (any such candidate is rejected inside
`calculate_amount_out` as insufficient liquidity), its only error is
`NoRouteFound{from, to}`, it succeeds exactly when some direct candidate
pool is accepted, and every successful `calculate_amount_out` is at least
100. -/
theorem find_best_single_hop_route_dust_floor (t2s : Int → Nat) (g : PoolGraph)
    (token_in token_out amount_in : Nat) :
    (match find_best_single_hop_route t2s g token_in token_out amount_in with
      | .ok route => 100 ≤ route.total_amount_out
      | .error e => e = .noRouteFound token_in token_out) ∧
    (isOkE (find_best_single_hop_route t2s g token_in token_out amount_in)
      = (g.get_pools_for_token token_in).any
          (single_hop_acceptedB t2s token_in token_out amount_in)) ∧
    (∀ (pool : PoolEdge) (amt : Nat) (zfo : Bool),
      match calculate_amount_out t2s pool amt zfo with
      | .ok out => 100 ≤ out
      | .error _ => True) := by
  have hinv := single_hop_fold_invariant t2s token_in token_out amount_in
    (g.get_pools_for_token token_in) (none, 0) (by simp) (by simp)
  refine ⟨?_, ?_, ?_⟩
  · unfold find_best_single_hop_route
    cases hbest : ((g.get_pools_for_token token_in).foldl
        (single_hop_step t2s token_in token_out amount_in) (none, 0)).1 with
    | none => simp [hbest]
    | some r => simpa [hbest] using hinv.1 r hbest
  · unfold find_best_single_hop_route
    cases hbest : ((g.get_pools_for_token token_in).foldl
        (single_hop_step t2s token_in token_out amount_in) (none, 0)).1 with
    | none =>
      have := hinv.2
      rw [hbest] at this
      simp only [hbest]
      simpa [isOkE] using this.symm
    | some r =>
      have := hinv.2
      rw [hbest] at this
      simp only [hbest]
      simpa [isOkE] using this.symm
  · intro pool amt zfo
    cases hc : calculate_amount_out t2s pool amt zfo with
    | ok out => simpa using calculate_amount_out_ge_100 _ _ _ _ _ hc
    | error e => simp

/-- Characterization of one step of the two-route grid search: either the
accumulator survives and already dominates the point's value, or the point
strictly improves and is recorded together with its split and amounts. -/
theorem two_route_step_cases (ra rb : Route) (total : Nat) (acc : SplitBest2)
    (x : Nat) :
    (two_route_step ra rb total acc x = acc ∧
      two_route_value ra rb total x ≤ acc.best_output) ∨
    (acc.best_output < two_route_value ra rb total x ∧
      two_route_step ra rb total acc x =
        ⟨two_route_value ra rb total x, (x, 100 - x),
          (if x = 0 then 0 else total * x / 100,
            total - (if x = 0 then 0 else total * x / 100))⟩) := by
  by_cases h1 : x < 5 ∧ 0 < x
  · refine Or.inl ⟨?_, ?_⟩
    · simp only [two_route_step]
      rw [if_pos h1]
    · simp only [two_route_value]
      rw [if_pos h1]
      exact Nat.zero_le _
  · by_cases h2 : 100 - x < 5 ∧ 0 < 100 - x
    · refine Or.inl ⟨?_, ?_⟩
      · simp only [two_route_step]
        rw [if_neg h1, if_pos h2]
      · simp only [two_route_value]
        rw [if_neg h1, if_pos h2]
        exact Nat.zero_le _
    · have hval : two_route_value ra rb total x =
          (if 0 < x then
            simulate_route_output ra (if x = 0 then 0 else total * x / 100) else 0) +
          (if 0 < 100 - x then
            simulate_route_output rb
              (total - (if x = 0 then 0 else total * x / 100)) else 0) := by
        simp only [two_route_value]
        rw [if_neg h1, if_neg h2]
      by_cases h3 : acc.best_output <
          (if 0 < x then
            simulate_route_output ra (if x = 0 then 0 else total * x / 100) else 0) +
          (if 0 < 100 - x then
            simulate_route_output rb
              (total - (if x = 0 then 0 else total * x / 100)) else 0)
      · refine Or.inr ⟨by rw [hval]; exact h3, ?_⟩
        simp only [two_route_step]
        rw [if_neg h1, if_neg h2, if_pos h3, hval]
      · refine Or.inl ⟨?_, ?_⟩
        · simp only [two_route_step]
          rw [if_neg h1, if_neg h2, if_neg h3]
        · rw [hval]
          exact le_of_not_lt h3

/-- The best output tracked by the two-route grid search never decreases. -/
theorem two_route_step_mono (ra rb : Route) (total : Nat) (acc : SplitBest2)
    (x : Nat) : acc.best_output ≤ (two_route_step ra rb total acc x).best_output := by
  rcases two_route_step_cases ra rb total acc x with ⟨heq, _⟩ | ⟨hlt, heq⟩
  · rw [heq]
  · rw [heq]
    exact le_of_lt hlt

/-- One step of the two-route grid search dominates the value of the grid
point it processes. -/
theorem two_route_step_ge_value (ra rb : Route) (total : Nat) (acc : SplitBest2)
    (x : Nat) :
    two_route_value ra rb total x ≤ (two_route_step ra rb total acc x).best_output := by
  rcases two_route_step_cases ra rb total acc x with ⟨heq, hle⟩ | ⟨hlt, heq⟩
  · rw [heq]
    exact hle
  · rw [heq]

/-- Monotonicity of the two-route grid fold. -/
theorem two_route_foldl_mono (ra rb : Route) (total : Nat) (l : List Nat) :
    ∀ acc : SplitBest2,
      acc.best_output ≤ (l.foldl (two_route_step ra rb total) acc).best_output := by
  induction l with
  | nil => intro acc; exact le_refl _
  | cons x rest ih =>
    intro acc
    exact le_trans (two_route_step_mono ra rb total acc x) (ih _)

/-- The two-route grid fold dominates the value of every grid point. -/
theorem two_route_foldl_ge_value (ra rb : Route) (total : Nat) (l : List Nat)
    (x : Nat) (hx : x ∈ l) :
    ∀ acc : SplitBest2,
      two_route_value ra rb total x ≤ (l.foldl (two_route_step ra rb total) acc).best_output := by
  induction l with
  | nil => cases hx
  | cons y rest ih =>
    intro acc
    rcases List.mem_cons.mp hx with heq | hmem
    · subst heq
      exact le_trans (two_route_step_ge_value ra rb total acc x)
        (two_route_foldl_mono ra rb total rest _)
    · exact ih hmem _

/-- Value of the `split_a = 100` grid point: the whole amount through the
first route. -/
theorem two_route_value_100 (ra rb : Route) (total : Nat) :
    two_route_value ra rb total 100 = simulate_route_output ra total := by
  have h : total * 100 / 100 = total := by omega
  simp [two_route_value, h]

/-- Value of the `split_a = 0` grid point: the whole amount through the
second route. -/
theorem two_route_value_0 (ra rb : Route) (total : Nat) :
    two_route_value ra rb total 0 = simulate_route_output rb total := by
  simp [two_route_value]

/-- The percentages tracked by the two-route grid search always sum to 100. -/
theorem two_route_foldl_sum (ra rb : Route) (total : Nat) (l : List Nat)
    (hl : ∀ x ∈ l, x ≤ 100) :
    ∀ acc : SplitBest2, acc.best_split.1 + acc.best_split.2 = 100 →
      (l.foldl (two_route_step ra rb total) acc).best_split.1 +
        (l.foldl (two_route_step ra rb total) acc).best_split.2 = 100 := by
  induction l with
  | nil => intro acc hacc; exact hacc
  | cons x rest ih =>
    intro acc hacc
    have hx : x ≤ 100 := hl x (List.mem_cons_self x rest)
    have hrest : ∀ y ∈ rest, y ≤ 100 := fun y hy => hl y (List.mem_cons_of_mem x hy)
    refine ih hrest _ ?_
    rcases two_route_step_cases ra rb total acc x with ⟨heq, _⟩ | ⟨_, heq⟩
    · rw [heq]
      exact hacc
    · rw [heq]
      show x + (100 - x) = 100
      omega

/-- Characterization of one step of the three-route grid search: the
accumulator survives and dominates the point's value, or the point strictly
improves and is recorded with its split and amounts. -/
theorem three_route_step_cases (ra rb rc : Route) (total : Nat)
    (acc : SplitBest3) (x : Nat × Nat) :
    (three_route_step ra rb rc total acc x = acc ∧
      three_route_value ra rb rc total x ≤ acc.best_output) ∨
    (acc.best_output < three_route_value ra rb rc total x ∧
      three_route_step ra rb rc total acc x =
        ⟨three_route_value ra rb rc total x, (x.1, x.2, 100 - x.1 - x.2),
          (if x.1 = 0 then 0 else total * x.1 / 100,
            if x.2 = 0 then 0 else total * x.2 / 100,
            total - (if x.1 = 0 then 0 else total * x.1 / 100) -
              (if x.2 = 0 then 0 else total * x.2 / 100))⟩) := by
  by_cases h1 : 0 < x.1 ∧ x.1 < 10
  · refine Or.inl ⟨?_, ?_⟩
    · simp only [three_route_step]
      rw [if_pos h1]
    · simp only [three_route_value]
      rw [if_pos h1]
      exact Nat.zero_le _
  · by_cases h2 : 0 < x.2 ∧ x.2 < 10
    · refine Or.inl ⟨?_, ?_⟩
      · simp only [three_route_step]
        rw [if_neg h1, if_pos h2]
      · simp only [three_route_value]
        rw [if_neg h1, if_pos h2]
        exact Nat.zero_le _
    · by_cases h3 : 0 < 100 - x.1 - x.2 ∧ 100 - x.1 - x.2 < 10
      · refine Or.inl ⟨?_, ?_⟩
        · simp only [three_route_step]
          rw [if_neg h1, if_neg h2, if_pos h3]
        · simp only [three_route_value]
          rw [if_neg h1, if_neg h2, if_pos h3]
          exact Nat.zero_le _
      · have hval : three_route_value ra rb rc total x =
            (if 0 < x.1 then
              simulate_route_output ra (if x.1 = 0 then 0 else total * x.1 / 100) else 0) +
            (if 0 < x.2 then
              simulate_route_output rb (if x.2 = 0 then 0 else total * x.2 / 100) else 0) +
            (if 0 < 100 - x.1 - x.2 then
              simulate_route_output rc
                (total - (if x.1 = 0 then 0 else total * x.1 / 100) -
                  (if x.2 = 0 then 0 else total * x.2 / 100)) else 0) := by
          simp only [three_route_value]
          rw [if_neg h1, if_neg h2, if_neg h3]
        by_cases h4 : acc.best_output <
            (if 0 < x.1 then
              simulate_route_output ra (if x.1 = 0 then 0 else total * x.1 / 100) else 0) +
            (if 0 < x.2 then
              simulate_route_output rb (if x.2 = 0 then 0 else total * x.2 / 100) else 0) +
            (if 0 < 100 - x.1 - x.2 then
              simulate_route_output rc
                (total - (if x.1 = 0 then 0 else total * x.1 / 100) -
                  (if x.2 = 0 then 0 else total * x.2 / 100)) else 0)
        · refine Or.inr ⟨by rw [hval]; exact h4, ?_⟩
          simp only [three_route_step]
          rw [if_neg h1, if_neg h2, if_neg h3, if_pos h4, hval]
        · refine Or.inl ⟨?_, ?_⟩
          · simp only [three_route_step]
            rw [if_neg h1, if_neg h2, if_neg h3, if_neg h4]
          · rw [hval]
            exact le_of_not_lt h4

/-- The best output tracked by the three-route grid search never decreases. -/
theorem three_route_step_mono (ra rb rc : Route) (total : Nat) (acc : SplitBest3)
    (x : Nat × Nat) :
    acc.best_output ≤ (three_route_step ra rb rc total acc x).best_output := by
  rcases three_route_step_cases ra rb rc total acc x with ⟨heq, _⟩ | ⟨hlt, heq⟩
  · rw [heq]
  · rw [heq]
    exact le_of_lt hlt

/-- One step of the three-route grid search dominates the value of the grid
point it processes. -/
theorem three_route_step_ge_value (ra rb rc : Route) (total : Nat)
    (acc : SplitBest3) (x : Nat × Nat) :
    three_route_value ra rb rc total x ≤
      (three_route_step ra rb rc total acc x).best_output := by
  rcases three_route_step_cases ra rb rc total acc x with ⟨heq, hle⟩ | ⟨hlt, heq⟩
  · rw [heq]
    exact hle
  · rw [heq]

/-- Monotonicity of the three-route grid fold. -/
theorem three_route_foldl_mono (ra rb rc : Route) (total : Nat)
    (l : List (Nat × Nat)) :
    ∀ acc : SplitBest3,
      acc.best_output ≤ (l.foldl (three_route_step ra rb rc total) acc).best_output := by
  induction l with
  | nil => intro acc; exact le_refl _
  | cons x rest ih =>
    intro acc
    exact le_trans (three_route_step_mono ra rb rc total acc x) (ih _)

/-- The three-route grid fold dominates the value of every grid point. -/
theorem three_route_foldl_ge_value (ra rb rc : Route) (total : Nat)
    (l : List (Nat × Nat)) (x : Nat × Nat) (hx : x ∈ l) :
    ∀ acc : SplitBest3,
      three_route_value ra rb rc total x ≤
        (l.foldl (three_route_step ra rb rc total) acc).best_output := by
  induction l with
  | nil => cases hx
  | cons y rest ih =>
    intro acc
    rcases List.mem_cons.mp hx with heq | hmem
    · subst heq
      exact le_trans (three_route_step_ge_value ra rb rc total acc x)
        (three_route_foldl_mono ra rb rc total rest _)
    · exact ih hmem _

/-- Value of the `(100, 0)` grid point. -/
theorem three_route_value_a (ra rb rc : Route) (total : Nat) :
    three_route_value ra rb rc total (100, 0) = simulate_route_output ra total := by
  have h : total * 100 / 100 = total := by omega
  simp [three_route_value, h]

/-- Value of the `(0, 100)` grid point. -/
theorem three_route_value_b (ra rb rc : Route) (total : Nat) :
    three_route_value ra rb rc total (0, 100) = simulate_route_output rb total := by
  have h : total * 100 / 100 = total := by omega
  simp [three_route_value, h]

/-- Value of the `(0, 0)` grid point (everything on the third route). -/
theorem three_route_value_c (ra rb rc : Route) (total : Nat) :
    three_route_value ra rb rc total (0, 0) = simulate_route_output rc total := by
  simp [three_route_value]

/-- Invariant of the three-route grid fold: the tracked split is the initial
`(0,0,0)` with zero output, or some grid allocation whose shares sum
to 100. -/
theorem three_route_foldl_split (ra rb rc : Route) (total : Nat)
    (l : List (Nat × Nat)) (hl : ∀ x ∈ l, x.1 + x.2 ≤ 100) :
    ∀ acc : SplitBest3,
      (acc.best_output = 0 ∧ acc.best_split = (0, 0, 0)) ∨
        acc.best_split.1 + acc.best_split.2.1 + acc.best_split.2.2 = 100 →
      ((l.foldl (three_route_step ra rb rc total) acc).best_output = 0 ∧
        (l.foldl (three_route_step ra rb rc total) acc).best_split = (0, 0, 0)) ∨
        (l.foldl (three_route_step ra rb rc total) acc).best_split.1 +
          (l.foldl (three_route_step ra rb rc total) acc).best_split.2.1 +
          (l.foldl (three_route_step ra rb rc total) acc).best_split.2.2 = 100 := by
  induction l with
  | nil => intro acc hacc; exact hacc
  | cons x rest ih =>
    intro acc hacc
    have hx : x.1 + x.2 ≤ 100 := hl x (List.mem_cons_self x rest)
    have hrest : ∀ y ∈ rest, y.1 + y.2 ≤ 100 := fun y hy => hl y (List.mem_cons_of_mem x hy)
    refine ih hrest _ ?_
    rcases three_route_step_cases ra rb rc total acc x with ⟨heq, _⟩ | ⟨_, heq⟩
    · rw [heq]
      exact hacc
    · rw [heq]
      right
      show x.1 + x.2 + (100 - x.1 - x.2) = 100
      omega

/-- Percentage sum of the two-route split output list. -/
theorem pct_list_sum_two (r1 r2 : Route) (s1 s2 : Nat) :
    ((((if 0 < s1 then [(r1, s1)] else []) ++
        (if 0 < s2 then [(r2, s2)] else [])).map (·.2)).sum) = s1 + s2 := by
  by_cases h1 : 0 < s1 <;> by_cases h2 : 0 < s2 <;> simp [h1, h2] <;> omega

/-- Percentage sum of the three-route split output list. -/
theorem pct_list_sum_three (r1 r2 r3 : Route) (s1 s2 s3 : Nat) :
    ((((if 0 < s1 then [(r1, s1)] else []) ++ (if 0 < s2 then [(r2, s2)] else []) ++
        (if 0 < s3 then [(r3, s3)] else [])).map (·.2)).sum) = s1 + s2 + s3 := by
  by_cases h1 : 0 < s1 <;> by_cases h2 : 0 < s2 <;> by_cases h3 : 0 < s3 <;>
    simp [h1, h2, h3] <;> omega

/-- Full specification of the two-route grid search used by claims C5 and
C6: it always succeeds, emits at most two sub-routes whose percentages sum
to 100, and its output dominates sending the whole amount through either
candidate (the `split_a = 100` and `split_a = 0` grid points). -/
theorem optimize_two_route_split_spec (ra rb : Route) (total : Nat) :
    ∀ s, optimize_two_route_split ra rb total = .ok s →
      s.routes.length ≤ MAX_SPLITS ∧ pct_sum s = 100 ∧
      ∀ r ∈ [ra, rb], simulate_route_output r total ≤ s.total_amount_out := by
  intro s hs
  rw [optimize_two_route_split] at hs
  injection hs with hs
  subst hs
  refine ⟨?_, ?_, ?_⟩
  · show (two_route_split_routes ra rb total).length ≤ MAX_SPLITS
    rw [two_route_split_routes]
    split_ifs <;> simp [MAX_SPLITS]
  · show ((two_route_split_routes ra rb total).map (·.2)).sum = 100
    rw [two_route_split_routes, pct_list_sum_two]
    exact two_route_foldl_sum ra rb total two_route_candidates (by decide) _ rfl
  · intro r hr
    show simulate_route_output r total ≤ (two_route_best ra rb total).best_output
    rcases List.mem_cons.mp hr with h | hr2
    · rw [h]
      have h100 := two_route_foldl_ge_value ra rb total two_route_candidates 100
        (by decide) ⟨0, (100, 0), (0, 0)⟩
      rw [two_route_value_100] at h100
      exact h100
    · rcases List.mem_cons.mp hr2 with h | hr3
      · rw [h]
        have h0 := two_route_foldl_ge_value ra rb total two_route_candidates 0
          (by decide) ⟨0, (100, 0), (0, 0)⟩
        rw [two_route_value_0] at h0
        exact h0
      · cases hr3

/-- Full specification of the three-route grid search used by claims C5 and
C6: it always succeeds, emits at most three sub-routes, its output dominates
sending the whole amount through any of the three candidates, and the
percentages sum to 100 as soon as some candidate has positive simulated
output (the initial `(0,0,0)` split survives otherwise). -/
theorem optimize_three_route_split_spec (ra rb rc : Route) (total : Nat) :
    ∀ s, optimize_three_route_split ra rb rc total = .ok s →
      s.routes.length ≤ MAX_SPLITS ∧
      (∀ r ∈ [ra, rb, rc], simulate_route_output r total ≤ s.total_amount_out) ∧
      ((∃ r ∈ [ra, rb, rc], 0 < simulate_route_output r total) → pct_sum s = 100) := by
  intro s hs
  rw [optimize_three_route_split] at hs
  injection hs with hs
  subst hs
  have hge : ∀ r ∈ [ra, rb, rc], simulate_route_output r total ≤
      (three_route_best ra rb rc total).best_output := by
    intro r hr
    rcases List.mem_cons.mp hr with h | hr2
    · rw [h]
      have ha := three_route_foldl_ge_value ra rb rc total three_route_candidates
        (100, 0) (by decide) ⟨0, (0, 0, 0), (0, 0, 0)⟩
      rw [three_route_value_a] at ha
      exact ha
    · rcases List.mem_cons.mp hr2 with h | hr3
      · rw [h]
        have hb := three_route_foldl_ge_value ra rb rc total three_route_candidates
          (0, 100) (by decide) ⟨0, (0, 0, 0), (0, 0, 0)⟩
        rw [three_route_value_b] at hb
        exact hb
      · rcases List.mem_cons.mp hr3 with h | hr4
        · rw [h]
          have hc := three_route_foldl_ge_value ra rb rc total three_route_candidates
            (0, 0) (by decide) ⟨0, (0, 0, 0), (0, 0, 0)⟩
          rw [three_route_value_c] at hc
          exact hc
        · cases hr4
  refine ⟨?_, hge, ?_⟩
  · show (three_route_split_routes ra rb rc total).length ≤ MAX_SPLITS
    rw [three_route_split_routes]
    split_ifs <;> simp [MAX_SPLITS]
  · rintro ⟨r, hr, hpos⟩
    have hout : 0 < (three_route_best ra rb rc total).best_output :=
      lt_of_lt_of_le hpos (hge r hr)
    have hsplit := three_route_foldl_split ra rb rc total three_route_candidates
      (by decide) ⟨0, (0, 0, 0), (0, 0, 0)⟩ (Or.inl ⟨rfl, rfl⟩)
    rcases hsplit with ⟨hzero, _⟩ | hsum
    · exact absurd hout (by rw [three_route_best, hzero]; exact lt_irrefl 0)
    · show ((three_route_split_routes ra rb rc total).map (·.2)).sum = 100
      rw [three_route_split_routes, pct_list_sum_three]
      exact hsum

/-- Claim C5 (amended): `optimize_split_route` returns `InternalError` if
and only if the route list is empty; every returned `SplitRoute` carries at
most `MAX_SPLITS = 3` sub-routes; and its percentages sum to exactly 100
whenever the list has at most two routes, or some of the first three routes
has positive simulated output at `totalAmount` — with three candidates and
all-zero simulated outputs (e.g. `totalAmount = 0`) the three-way grid keeps
its initial `(0,0,0)` split and the emitted percentage sum is 0 instead. -/
theorem optimize_split_route_contract (routes : List Route) (total_amount : Nat)
    (h : routes.length ≤ 2 ∨
      ∃ r ∈ routes.take MAX_SPLITS, 0 < simulate_route_output r total_amount) :
    isOkE (optimize_split_route routes total_amount) = !routes.isEmpty ∧
    (match optimize_split_route routes total_amount with
      | .ok s => s.routes.length ≤ MAX_SPLITS ∧ pct_sum s = 100
      | .error _ => True) := by
  match routes with
  | [] => exact ⟨rfl, trivial⟩
  | [r] =>
    refine ⟨rfl, ?_, rfl⟩
    show ([(r, 100)] : List (Route × Nat)).length ≤ MAX_SPLITS
    norm_num [MAX_SPLITS]
  | [ra, rb] =>
    obtain ⟨hlen, hsum, _⟩ := optimize_two_route_split_spec ra rb total_amount _ rfl
    exact ⟨rfl, hlen, hsum⟩
  | ra :: rb :: rc :: rest =>
    obtain ⟨hlen, _, hsum⟩ := optimize_three_route_split_spec ra rb rc total_amount _ rfl
    refine ⟨rfl, hlen, ?_⟩
    apply hsum
    rcases h with h2 | ⟨r, hr, hpos⟩
    · simp at h2
    · refine ⟨r, ?_, hpos⟩
      simpa [MAX_SPLITS, List.take] using hr

/-- Witness for C5's theorem at a concrete two-route input. -/
theorem optimize_split_route_contract_witness :
    isOkE (optimize_split_route
        [⟨[], 1000, 990, 0.1, 100000⟩, ⟨[], 1000, 985, 0.1, 100000⟩] 1000) =
      !([⟨[], 1000, 990, 0.1, 100000⟩, ⟨[], 1000, 985, 0.1, 100000⟩] :
        List Route).isEmpty ∧
    (match optimize_split_route
        [⟨[], 1000, 990, 0.1, 100000⟩, ⟨[], 1000, 985, 0.1, 100000⟩] 1000 with
      | .ok s => s.routes.length ≤ MAX_SPLITS ∧ pct_sum s = 100
      | .error _ => True) :=
  optimize_split_route_contract
    [⟨[], 1000, 990, 0.1, 100000⟩, ⟨[], 1000, 985, 0.1, 100000⟩] 1000
    (Or.inl (by simp))

/-- Counterexample for claim C5 as frozen: with three candidate routes and
`totalAmount = 0` every grid allocation simulates to output 0, the initial
`(0,0,0)` split survives, and the emitted `SplitRoute` has percentage sum 0
rather than 100 (its sub-route list is empty). -/
theorem optimize_split_route_zero_amount_pct :
    pctOfResult (optimize_split_route
      [⟨[], 1000, 990, 0.1, 100000⟩, ⟨[], 1000, 985, 0.1, 100000⟩,
        ⟨[], 1000, 980, 0.1, 100000⟩] 0) = some 0 ∧
    pctOfResult (optimize_split_route
      [⟨[], 1000, 990, 0.1, 100000⟩, ⟨[], 1000, 985, 0.1, 100000⟩,
        ⟨[], 1000, 980, 0.1, 100000⟩] 0) ≠ some 100 := by
  set_option maxRecDepth 8192 in constructor <;> decide

/-- Claim C6 (amended): for every candidate list holding at least two routes
and every total amount in `U256` range, the `SplitRoute` produced by
`optimizeSplitRoute` has `totalAmountOut` at least the linearly scaled
output `simulate_route_output r totalAmount` of each of the first
`MAX_SPLITS` candidate routes (the whole-amount grid points are always
examined); a single-route list is returned unscaled, so the claim as frozen
fails there. -/
theorem optimize_split_route_ge_candidates (routes : List Route)
    (total_amount : Nat) (h2 : 2 ≤ routes.length)
    (_hrange : total_amount * 100 < 2 ^ 256) :
    ∀ r ∈ routes.take MAX_SPLITS,
      match optimize_split_route routes total_amount with
      | .ok s => simulate_route_output r total_amount ≤ s.total_amount_out
      | .error _ => False := by
  match routes with
  | [] => simp at h2
  | [r] => simp at h2
  | [ra, rb] =>
    obtain ⟨_, _, hge⟩ := optimize_two_route_split_spec ra rb total_amount _ rfl
    intro r hr
    apply hge
    simpa [MAX_SPLITS, List.take] using hr
  | ra :: rb :: rc :: rest =>
    obtain ⟨_, hge, _⟩ := optimize_three_route_split_spec ra rb rc total_amount _ rfl
    intro r hr
    apply hge
    simpa [MAX_SPLITS, List.take] using hr

/-- Witness for C6's theorem at a concrete two-route input. -/
theorem optimize_split_route_ge_candidates_witness :
    match optimize_split_route
        [⟨[], 1000, 990, 0.1, 100000⟩, ⟨[], 1000, 985, 0.1, 100000⟩] 400 with
    | .ok s =>
      simulate_route_output (⟨[], 1000, 990, 0.1, 100000⟩ : Route) 400 ≤
        s.total_amount_out
    | .error _ => False :=
  optimize_split_route_ge_candidates
    [⟨[], 1000, 990, 0.1, 100000⟩, ⟨[], 1000, 985, 0.1, 100000⟩] 400
    (by simp) (by norm_num) ⟨[], 1000, 990, 0.1, 100000⟩ (by simp [MAX_SPLITS])

/-- Counterexample for claim C6 as frozen: a single candidate route with
`totalIn = 1000`, `totalOut = 990` and `totalAmount = 2000` is returned
unscaled (output 990), while the linear-scaling model promises
`990 * 2000 / 1000 = 1980`. -/
theorem optimize_split_route_single_unscaled :
    outOfResult (optimize_split_route [⟨[], 1000, 990, 0.1, 100000⟩] 2000) =
      some 990 ∧
    simulate_route_output (⟨[], 1000, 990, 0.1, 100000⟩ : Route) 2000 = 1980 ∧
    ¬ (1980 ≤ (990 : Nat)) := by
  refine ⟨?_, ?_, ?_⟩ <;> decide

/-- Boolean membership agrees with list membership. -/
theorem memb_iff (x : Nat) : ∀ l : List Nat, memb x l = true ↔ x ∈ l := by
  intro l
  induction l with
  | nil => simp [memb]
  | cons y ys ih =>
    simp only [memb, Bool.or_eq_true, decide_eq_true_eq, ih, List.mem_cons]
    constructor
    · rintro (h | h)
      · exact Or.inl h.symm
      · exact Or.inr h
    · rintro (h | h)
      · exact Or.inl h.symm
      · exact Or.inr h

/-- Membership distributes over append. -/
theorem memb_append (x : Nat) (l1 l2 : List Nat) :
    memb x (l1 ++ l2) = (memb x l1 || memb x l2) := by
  induction l1 with
  | nil => simp [memb]
  | cons y ys ih => simp [memb, ih, Bool.or_assoc]

/-- Inserting preserves membership. -/
theorem memb_set_insert_of (a x : Nat) (l : List Nat) (h : memb a l = true) :
    memb a (set_insert x l) = true := by
  unfold set_insert
  split
  · exact h
  · simp [memb, h]

/-- The inserted element is a member. -/
theorem memb_set_insert_self (x : Nat) (l : List Nat) :
    memb x (set_insert x l) = true := by
  unfold set_insert
  split
  · next h => exact h
  · simp [memb]

/-- Appending a fresh element preserves the no-duplicates check. -/
theorem nodupb_append_one (x : Nat) :
    ∀ l : List Nat, nodupb l = true → ¬ x ∈ l → nodupb (l ++ [x]) = true := by
  intro l
  induction l with
  | nil => intro _ _; simp [nodupb, memb]
  | cons y ys ih =>
    intro hl hx
    simp only [nodupb, Bool.and_eq_true, Bool.not_eq_true'] at hl
    have hxy : ¬ x = y := fun h => hx (h ▸ List.mem_cons_self y ys)
    have hxs : ¬ x ∈ ys := fun h => hx (List.mem_cons_of_mem y h)
    simp only [List.cons_append, nodupb, Bool.and_eq_true, Bool.not_eq_true']
    refine ⟨?_, ih hl.2 hxs⟩
    show memb y (ys ++ [x]) = false
    rw [memb_append]
    simp [hl.1, memb, hxy]

/-- The last element of a snoc list is the appended one. -/
theorem lastd_snoc (x d : Nat) : ∀ l : List Nat, lastd d (l ++ [x]) = x := by
  intro l
  induction l generalizing d with
  | nil => rfl
  | cons y ys ih =>
    rw [List.cons_append]
    show lastd y (ys ++ [x]) = x
    exact ih y

/-- The token list traced by `path_chain` has one entry per pool. -/
theorem path_chain_length : ∀ (ps : List PoolEdge) (c : Nat) (ts : List Nat),
    path_chain c ps = some ts → ts.length = ps.length := by
  intro ps
  induction ps with
  | nil => intro c ts h; cases h; rfl
  | cons p rest ih =>
    intro c ts h
    simp only [path_chain] at h
    cases hot : p.other_token c with
    | none => simp [hot] at h
    | some n =>
      rw [hot] at h
      simp only [Option.some_bind] at h
      cases hrest : path_chain n rest with
      | none => simp [hrest] at h
      | some ts' =>
        rw [hrest] at h
        simp only [Option.map_some', Option.some.injEq] at h
        subst h
        simp [ih n ts' hrest]

/-- Extending the pool path by one pool extends the traced token list by the
pool's other endpoint, taken at the path's last token. -/
theorem path_chain_snoc (p : PoolEdge) : ∀ (ps : List PoolEdge) (c : Nat),
    path_chain c (ps ++ [p]) =
      match path_chain c ps with
      | none => none
      | some ts =>
        match p.other_token (lastd c ts) with
        | none => none
        | some nxt => some (ts ++ [nxt]) := by
  intro ps
  induction ps with
  | nil =>
    intro c
    simp only [List.nil_append, path_chain, lastd]
    cases hot : p.other_token c <;> simp [path_chain]
  | cons q qs ih =>
    intro c
    simp only [List.cons_append, path_chain]
    cases hot : q.other_token c with
    | none => simp
    | some n =>
      simp only [Option.some_bind, List.append_eq]
      rw [ih n]
      cases hqs : path_chain n qs with
      | none => simp
      | some ts' =>
        simp only [Option.map_some', lastd]
        cases hlast : p.other_token (lastd n ts') <;> simp [hlast]

/-- Case analysis of a successful `other_token` lookup. -/
theorem other_token_cases (p : PoolEdge) (c n : Nat)
    (h : p.other_token c = some n) :
    (c = p.token0 ∧ n = p.token1) ∨ (c ≠ p.token0 ∧ c = p.token1 ∧ n = p.token0) := by
  simp only [PoolEdge.other_token] at h
  by_cases h0 : c = p.token0
  · rw [if_pos h0] at h
    cases h
    exact Or.inl ⟨h0, rfl⟩
  · rw [if_neg h0] at h
    by_cases h1 : c = p.token1
    · rw [if_pos h1] at h
      cases h
      exact Or.inr ⟨h0, h1, rfl⟩
    · rw [if_neg h1] at h
      cases h

/-- Lookup `other_token` misses on a token that is neither endpoint. -/
theorem other_token_none (p : PoolEdge) (c : Nat) (h0 : c ≠ p.token0)
    (h1 : c ≠ p.token1) : p.other_token c = none := by
  simp [PoolEdge.other_token, h0, h1]

/-- Specification of the hop-construction loop: a successful `build_hops`
produces one hop per pool, its hops trace exactly the `path_chain` of the
pools from the start token, consecutive hops chain, and the first hop starts
at the start token. -/
theorem build_hops_spec (t2s : Int → Nat) :
    ∀ (path : List PoolEdge) (cur amt : Nat) (hops : List RouteHop),
      build_hops t2s path cur amt = .ok hops →
      hops.length = path.length ∧
      path_chain cur path = some (hops.map (·.token_out)) ∧
      hops_chain hops = true ∧
      (∀ h0 ∈ hops.head?, h0.token_in = cur) := by
  intro path
  induction path with
  | nil =>
    intro cur amt hops h
    simp only [build_hops] at h
    cases h
    exact ⟨rfl, rfl, rfl, by simp⟩
  | cons pool rest ih =>
    intro cur amt hops h
    cases hot : pool.other_token cur with
    | none => simp [build_hops, hot] at h
    | some tout =>
      cases hrec : build_hops t2s rest tout (simulate_swap t2s pool amt) with
      | error e => simp [build_hops, hot, hrec] at h
      | ok hops' =>
        simp only [build_hops, hot, hrec] at h
        injection h with h
        subst h
        obtain ⟨hlen, hchain, hhc, hhead⟩ :=
          ih tout (simulate_swap t2s pool amt) hops' hrec
        refine ⟨by simp [hlen], ?_, ?_, ?_⟩
        · simp [path_chain, hot, hchain]
        · cases hops' with
          | nil => rfl
          | cons h2 t2 =>
            have hh2 : h2.token_in = tout := hhead h2 rfl
            show (decide (tout = h2.token_in) && hops_chain (h2 :: t2)) = true
            simp [hh2, hhc]
        · intro h0 hh0
          simp only [List.head?_cons, Option.mem_def, Option.some.injEq] at hh0
          subst hh0
          rfl

/-- A route materialised by `build_route` from a state satisfying the search
invariant is well formed (chaining and no duplicate tokens) and has one hop
per path pool.  When the first pool's `token0` is not the search's start
token the hop direction is inverted, but for a one-pool path the two tokens
still differ, and for longer paths `build_route` fails instead. -/
theorem build_route_ok (t2s : Int → Nat) (token_in max_hops : Nat)
    (state : PathState) (amt : Nat) (route : Route)
    (hinv : StateInv token_in max_hops state)
    (hbr : build_route t2s state amt = .ok route) :
    route_ok route = true ∧ route.hops.length = state.path.length := by
  obtain ⟨ts, hpc, hnd, htok, hvis, hlen⟩ := hinv
  cases hpath : state.path with
  | nil => simp [build_route, hpath] at hbr
  | cons fp rest =>
    rw [hpath] at hpc
    simp only [path_chain] at hpc
    cases hot : fp.other_token token_in with
    | none => simp [hot] at hpc
    | some t1 =>
      rw [hot] at hpc
      simp only [Option.some_bind] at hpc
      cases hrest : path_chain t1 rest with
      | none => simp [hrest] at hpc
      | some ts2 =>
        rw [hrest] at hpc
        simp only [Option.map_some', Option.some.injEq] at hpc
        subst hpc
        have ht1mem : t1 ∈ token_in :: t1 :: ts2 :=
          List.mem_cons_of_mem _ (List.mem_cons_self _ _)
        have htin : memb token_in state.visited_tokens = true :=
          hvis token_in (List.mem_cons_self _ _)
        have ht1 : memb t1 state.visited_tokens = true := hvis t1 ht1mem
        have hstart : memb fp.token0 state.visited_tokens = true := by
          rcases other_token_cases fp token_in t1 hot with ⟨h0, _⟩ | ⟨_, _, h2⟩
          · rw [← h0]; exact htin
          · rw [← h2]; exact ht1
        simp only [build_route, hpath, List.head?_cons, hstart, if_true] at hbr
        cases hbh : build_hops t2s (fp :: rest) fp.token0 amt with
        | error e => rw [hbh] at hbr; exact absurd hbr (by simp)
        | ok hops =>
          rw [hbh] at hbr
          injection hbr with hbr
          subst hbr
          obtain ⟨hblen, hbchain, hbhc, hbhead⟩ :=
            build_hops_spec t2s (fp :: rest) fp.token0 amt hops hbh
          have hhopsne : hops ≠ [] := by
            intro hnil
            rw [hnil] at hblen
            simp at hblen
          obtain ⟨h0, hops', rfl⟩ : ∃ h0 hops', hops = h0 :: hops' := by
            cases hops with
            | nil => exact absurd rfl hhopsne
            | cons a l => exact ⟨a, l, rfl⟩
          have hh0 : h0.token_in = fp.token0 := hbhead h0 rfl
          have hrtokens : route_tokens ⟨h0 :: hops', amt, state.amount_out,
              calculate_price_impact amt state.amount_out, state.gas_used⟩ =
              fp.token0 :: (h0 :: hops').map (·.token_out) := by
            simp [route_tokens, hh0]
          rcases other_token_cases fp token_in t1 hot with ⟨h0eq, _⟩ | ⟨hne0, h1eq, h2eq⟩
          · -- correctly oriented first pool: the built chain is the state's chain
            have hmap : path_chain fp.token0 (fp :: rest) = some (t1 :: ts2) := by
              rw [← h0eq]
              simp [path_chain, hot, hrest]
            rw [hmap] at hbchain
            injection hbchain with hbchain
            refine ⟨?_, by simpa using hblen⟩
            rw [route_ok, Bool.and_eq_true]
            refine ⟨hbhc, ?_⟩
            rw [hrtokens, ← hbchain, ← h0eq]
            exact hnd
          · -- inverted first pool: only a single hop can be materialised
            have hfp1 : fp.other_token fp.token0 = some token_in := by
              simp [PoolEdge.other_token, h1eq]
            cases rest with
            | cons q qs =>
              exfalso
              -- the second pool does not touch token_in, so path_chain misses
              simp only [path_chain] at hrest
              cases hoq : q.other_token t1 with
              | none => simp [hoq] at hrest
              | some t2 =>
                rw [hoq] at hrest
                simp only [Option.some_bind] at hrest
                cases hq2 : path_chain t2 qs with
                | none => simp [hq2] at hrest
                | some ts3 =>
                  rw [hq2] at hrest
                  simp only [Option.map_some', Option.some.injEq] at hrest
                  have hnin : memb token_in (t1 :: ts2) = false := by
                    have := hnd
                    rw [nodupb, Bool.and_eq_true, Bool.not_eq_true'] at this
                    exact this.1
                  rw [← hrest] at hnin
                  have hne1 : token_in ≠ t1 := by
                    intro hcontra
                    rw [memb, hcontra] at hnin
                    simp at hnin
                  have hne2 : token_in ≠ t2 := by
                    intro hcontra
                    rw [memb, memb, hcontra] at hnin
                    simp at hnin
                  have hqnone : q.other_token token_in = none := by
                    rcases other_token_cases q t1 t2 hoq with ⟨hq0, hq1⟩ | ⟨_, hq1, hq0⟩
                    · exact other_token_none q token_in (hq0 ▸ hne1) (hq1 ▸ hne2)
                    · exact other_token_none q token_in (hq0 ▸ hne2) (hq1 ▸ hne1)
                  simp [build_hops, hfp1, hqnone] at hbh
            | nil =>
              -- single inverted hop: tokens are the two distinct pool ends
              have hts2 : ts2 = [] := by
                simp [path_chain] at hrest
                exact hrest
              subst hts2
              have hmap : path_chain fp.token0 [fp] = some [token_in] := by
                simp [path_chain, hfp1]
              rw [hmap] at hbchain
              injection hbchain with hbchain
              refine ⟨?_, by simpa using hblen⟩
              rw [route_ok, Bool.and_eq_true]
              refine ⟨hbhc, ?_⟩
              rw [hrtokens, ← hbchain, ← h2eq]
              have hne1 : token_in ≠ t1 := by
                have := hnd
                rw [nodupb, Bool.and_eq_true, Bool.not_eq_true'] at this
                intro hcontra
                rw [memb, hcontra] at this
                simp at this
              show (!memb t1 [token_in] && nodupb [token_in]) = true
              simp [memb, nodupb, hne1]

/-- One expansion step maps invariant states to invariant states (given
remaining hop budget), and keeps the accumulated ones. -/
theorem expand_step_inv (t2s : Int → Nat) (token_in max_hops : Nat)
    (state : PathState) (hinv : StateInv token_in max_hops state)
    (hbudget : state.path.length < max_hops) (acc : List PathState)
    (pool : PoolEdge) (hacc : ∀ x ∈ acc, StateInv token_in max_hops x) :
    ∀ ns ∈ expand_step t2s state acc pool, StateInv token_in max_hops ns := by
  intro ns hns
  cases hot : pool.other_token state.token with
  | none =>
    simp only [expand_step, hot] at hns
    exact hacc ns hns
  | some nxt =>
    simp only [expand_step, hot] at hns
    by_cases hm : memb nxt state.visited_tokens = true
    · rw [if_pos hm] at hns
      exact hacc ns hns
    · rw [if_neg hm] at hns
      by_cases hdust : simulate_swap t2s pool state.amount_out < 100
      · rw [if_pos hdust] at hns
        exact hacc ns hns
      · rw [if_neg hdust] at hns
        rcases List.mem_cons.mp hns with hnew | hold
        · subst hnew
          obtain ⟨ts, hpc, hnd, htok, hvis, _⟩ := hinv
          have hnotin : ¬ nxt ∈ token_in :: ts := by
            intro hmem
            exact hm (hvis nxt hmem)
          refine ⟨ts ++ [nxt], ?_, ?_, ?_, ?_, ?_⟩
          · rw [path_chain_snoc, hpc]
            show (match pool.other_token (lastd token_in ts) with
              | none => none
              | some m => some (ts ++ [m])) = some (ts ++ [nxt])
            rw [← htok, hot]
          · show nodupb ((token_in :: ts) ++ [nxt]) = true
            exact nodupb_append_one nxt (token_in :: ts) hnd hnotin
          · show nxt = lastd token_in (ts ++ [nxt])
            rw [lastd_snoc]
          · intro a ha
            rw [show token_in :: (ts ++ [nxt]) = (token_in :: ts) ++ [nxt] from rfl]
              at ha
            rcases List.mem_append.mp ha with hal | har
            · exact memb_set_insert_of a nxt state.visited_tokens (hvis a hal)
            · rw [List.mem_singleton.mp har]
              exact memb_set_insert_self nxt state.visited_tokens
          · show (state.path ++ [pool]).length ≤ max_hops
            rw [List.length_append]
            simpa using hbudget
        · exact hacc ns hold

/-- All results of neighbour expansion satisfy the invariant. -/
theorem expand_neighbors_inv (t2s : Int → Nat) (token_in max_hops : Nat)
    (state : PathState) (hinv : StateInv token_in max_hops state)
    (hbudget : state.path.length < max_hops) (pools : List PoolEdge) :
    ∀ ns ∈ expand_neighbors t2s state pools, StateInv token_in max_hops ns := by
  rw [expand_neighbors]
  generalize hacc0 : ([] : List PathState) = acc0
  have hacc : ∀ x ∈ acc0, StateInv token_in max_hops x := by
    rw [← hacc0]
    intro x hx
    cases hx
  clear hacc0
  induction pools generalizing acc0 with
  | nil => exact hacc
  | cons pool rest ih =>
    intro ns hns
    exact ih (expand_step t2s state acc0 pool)
      (expand_step_inv t2s token_in max_hops state hinv hbudget acc0 pool hacc)
      ns hns

/-- Popping from the work list yields a member, and a remainder contained in
the original list. -/
theorem pop_max_mem : ∀ (l : List PathState) (s : PathState)
    (rest : List PathState), pop_max l = some (s, rest) →
      s ∈ l ∧ ∀ x ∈ rest, x ∈ l := by
  intro l
  induction l with
  | nil => intro s rest h; cases h
  | cons a tail ih =>
    intro s rest h
    cases hp : pop_max tail with
    | none =>
      simp only [pop_max, hp] at h
      obtain ⟨h1, h2⟩ := Prod.mk.injEq .. ▸ Option.some.injEq .. ▸ h
      subst h1
      subst h2
      exact ⟨List.mem_cons_self _ _, by intro x hx; cases hx⟩
    | some mr =>
      obtain ⟨m, rest'⟩ := mr
      simp only [pop_max, hp] at h
      by_cases hlt : a.amount_out < m.amount_out
      · rw [if_pos hlt] at h
        simp only [Option.some.injEq, Prod.mk.injEq] at h
        obtain ⟨h1, h2⟩ := h
        subst h1
        subst h2
        obtain ⟨hm, hr⟩ := ih m rest' hp
        refine ⟨List.mem_cons_of_mem _ hm, ?_⟩
        intro x hx
        rcases List.mem_cons.mp hx with h3 | h3
        · rw [h3]; exact List.mem_cons_self _ _
        · exact List.mem_cons_of_mem _ (hr x h3)
      · rw [if_neg hlt] at h
        simp only [Option.some.injEq, Prod.mk.injEq] at h
        obtain ⟨h1, h2⟩ := h
        subst h1
        subst h2
        exact ⟨List.mem_cons_self _ _, fun x hx => List.mem_cons_of_mem _ hx⟩

/-- Main safety lemma of the bounded best-first search: if every state in
the work list satisfies the invariant and every already-completed route is
well formed within the hop budget, then so is every route produced by the
loop, for any amount of fuel. -/
theorem search_loop_ok (t2s : Int → Nat) (g : PoolGraph)
    (token_in token_out amount_in max_hops top_n : Nat) :
    ∀ (fuel : Nat) (heap : List PathState) (best : List (Nat × Nat))
      (completed : List Route),
      (∀ s ∈ heap, StateInv token_in max_hops s) →
      (∀ r ∈ completed, route_ok r = true ∧ r.hops.length ≤ max_hops) →
      ∀ r ∈ search_loop t2s g token_out amount_in max_hops top_n fuel heap
        best completed,
        route_ok r = true ∧ r.hops.length ≤ max_hops := by
  intro fuel
  induction fuel with
  | zero =>
    intro heap best completed _ hcomp r hr
    exact hcomp r hr
  | succ fuel ih =>
    intro heap best completed hheap hcomp r hr
    cases hpm : pop_max heap with
    | none =>
      simp only [search_loop, hpm] at hr
      exact hcomp r hr
    | some sr =>
      obtain ⟨state, rest⟩ := sr
      simp only [search_loop, hpm] at hr
      obtain ⟨hsmem, hrmem⟩ := pop_max_mem heap state rest hpm
      have hstate : StateInv token_in max_hops state := hheap state hsmem
      have hrest : ∀ s ∈ rest, StateInv token_in max_hops s :=
        fun s hs => hheap s (hrmem s hs)
      by_cases htk : state.token = token_out
      · rw [if_pos htk] at hr
        cases hbr : build_route t2s state amount_in with
        | ok route =>
          simp only [hbr] at hr
          have hlen : state.path.length ≤ max_hops := by
            obtain ⟨ts, _, _, _, _, hl⟩ := hstate
            exact hl
          have hroute := build_route_ok t2s token_in max_hops state amount_in
            route hstate hbr
          have hrok : route_ok route = true ∧ route.hops.length ≤ max_hops :=
            ⟨hroute.1, hroute.2 ▸ hlen⟩
          have hcomp' : ∀ x ∈ completed ++ [route],
              route_ok x = true ∧ x.hops.length ≤ max_hops := by
            intro x hx
            rcases List.mem_append.mp hx with hx1 | hx2
            · exact hcomp x hx1
            · rw [List.mem_singleton.mp hx2]
              exact hrok
          by_cases hstop : top_n ≤ completed.length + 1
          · rw [if_pos hstop] at hr
            exact hcomp' r hr
          · rw [if_neg hstop] at hr
            exact ih rest best (completed ++ [route]) hrest hcomp' r hr
        | error e =>
          simp only [hbr] at hr
          exact ih rest best completed hrest hcomp r hr
      · rw [if_neg htk] at hr
        by_cases hpr : pruned best state.token state.amount_out = true
        · rw [if_pos hpr] at hr
          exact ih rest best completed hrest hcomp r hr
        · rw [if_neg hpr] at hr
          by_cases hmh : max_hops ≤ state.path.length
          · rw [if_pos hmh] at hr
            exact ih rest _ completed hrest hcomp r hr
          · rw [if_neg hmh] at hr
            have hexp : ∀ s ∈ expand_neighbors t2s state
                (g.get_pools_for_token state.token) ++ rest,
                StateInv token_in max_hops s := by
              intro s hs
              rcases List.mem_append.mp hs with hs1 | hs2
              · exact expand_neighbors_inv t2s token_in max_hops state hstate
                  (lt_of_not_le hmh) _ s hs1
              · exact hrest s hs2
            exact ih _ _ completed hexp hcomp r hr

/-- The invariant of the initial search state. -/
theorem initial_state_inv (token_in amount_in max_hops : Nat) :
    StateInv token_in max_hops ⟨token_in, amount_in, [], [token_in], 0⟩ := by
  refine ⟨[], rfl, by simp [nodupb, memb], rfl, ?_, by simp⟩
  intro a ha
  rw [List.mem_singleton.mp ha]
  simp [memb]

/-- Claim C2 (amended): every route returned by `find_top_routes` has
consecutive hops that chain (`hops[i].tokenOut = hops[i+1].tokenIn`) and no
token address appears twice in its token sequence.  The first hop's
`tokenIn` is the first pool's `token0`, which need not equal the requested
`tokenIn` (the conjunct of the frozen claim that fails). -/
theorem find_top_routes_routes_ok (t2s : Int → Nat) (g : PoolGraph)
    (token_in token_out amount_in max_hops top_n : Nat) :
    (find_top_routes t2s g token_in token_out amount_in max_hops top_n).all
      route_ok = true := by
  cases hp : g.has_path token_in token_out with
  | false => simp [find_top_routes, hp]
  | true =>
    simp only [find_top_routes, hp, Bool.not_true, Bool.false_eq_true, if_false]
    rw [List.all_eq_true]
    intro r hr
    rw [sort_routes_desc] at hr
    have hmem := (List.mem_insertionSort route_ge).mp hr
    have hinit : ∀ s ∈ [(⟨token_in, amount_in, [], [token_in], 0⟩ : PathState)],
        StateInv token_in (min max_hops MAX_HOPS) s := by
      intro s hs
      rw [List.mem_singleton.mp hs]
      exact initial_state_inv token_in amount_in (min max_hops MAX_HOPS)
    have := search_loop_ok t2s g token_in token_out amount_in
      (min max_hops MAX_HOPS) top_n (search_fuel g top_n) _ [] []
      hinit (by intro x hx; cases hx) r hmem
    exact this.1

/-- Claim C4: the list returned by `find_top_routes` is sorted by descending
`total_amount_out`, and every returned route has at most
`min maxHops MAX_HOPS` hops (the budget is clamped to `MAX_HOPS = 4`). -/
theorem find_top_routes_sorted_and_hop_capped (t2s : Int → Nat) (g : PoolGraph)
    (token_in token_out amount_in max_hops top_n : Nat) :
    List.Sorted route_ge
      (find_top_routes t2s g token_in token_out amount_in max_hops top_n) ∧
    (find_top_routes t2s g token_in token_out amount_in max_hops top_n).all
      (fun r => r.hops.length ≤ min max_hops MAX_HOPS) = true := by
  constructor
  · cases hp : g.has_path token_in token_out with
    | false => simp [find_top_routes, hp, List.sorted_nil]
    | true =>
      simp only [find_top_routes, hp, Bool.not_true, Bool.false_eq_true, if_false]
      exact List.sorted_insertionSort route_ge _
  · cases hp : g.has_path token_in token_out with
    | false => simp [find_top_routes, hp]
    | true =>
      simp only [find_top_routes, hp, Bool.not_true, Bool.false_eq_true, if_false]
      rw [List.all_eq_true]
      intro r hr
      rw [sort_routes_desc] at hr
      have hmem := (List.mem_insertionSort route_ge).mp hr
      have hinit : ∀ s ∈ [(⟨token_in, amount_in, [], [token_in], 0⟩ : PathState)],
          StateInv token_in (min max_hops MAX_HOPS) s := by
        intro s hs
        rw [List.mem_singleton.mp hs]
        exact initial_state_inv token_in amount_in (min max_hops MAX_HOPS)
      have := search_loop_ok t2s g token_in token_out amount_in
        (min max_hops MAX_HOPS) top_n (search_fuel g top_n) _ [] []
        hinit (by intro x hx; cases hx) r hmem
      simpa using this.2

/-- Counterexample for the `hops[0].tokenIn = requested tokenIn` conjunct of
claim C2 as frozen: searching `1 → 2` through the pool with `token0 = 2`
returns exactly one route whose first hop has `token_in = 2`, not 1. -/
theorem find_top_routes_reversed_first_hop :
    ((find_top_routes c2t2s c2graph 1 2 1000000 4 3).map
      (fun r => r.hops.head?.map (·.token_in))) = [some 2] ∧
    ¬ (∀ r ∈ find_top_routes c2t2s c2graph 1 2 1000000 4 3,
        r.hops.head?.map (·.token_in) = some 1) := by
  constructor
  · set_option maxRecDepth 8192 in decide
  · set_option maxRecDepth 8192 in decide

end RoutingEngine

